import Mathlib

/-!
# reader.c : terminal file explorer (key decoder, pager, directory browser)

A shallow embedding of `src/reader.c`.

* C `int` values are `Int`.  Overflow of a signed `int` is undefined in C and
  is not modelled: the integers of the program are line counts, entry counts,
  key codes and the offsets computed from them.
* C strings are `String`, one Lean character standing for one C `char`;
  `strlen` is `String.length`.
* The outside world is a record of oracle tapes: the bytes pending on standard
  input, the results of the successive `opendir`/`readdir` enumerations, of the
  successive `fopen` calls, of the successive `TIOCGWINSZ` queries and of the
  successive `malloc` calls.  Each call consumes the head of its tape.
  Everything the program does to the outside world is appended to the trace
  `out`.
* `while (1)` loops take a fuel argument; `none` means that the fuel ran out.
* The terminal attributes, the global `orig_termios` and the `atexit`
  registrations live in a record `Proc` around the world; the constants of
  `termios.h` are parameters.
-/

namespace Reader

/-! ## Constants -/

def MAX_FILES : Nat := 10000
def MAX_PATH : Nat := 4096
def MAX_LINE : Nat := 512

/-- One byte of input. -/
abbrev Byte := Fin 256

/-! Character constants of the source appear as their codes: `'\n'` 10,
`'\r'` 13, ESC 27, `' '` 32, `'A'`..`'D'` 65..68, `'G'` 71, `'Q'` 81, `'['` 91,
`'b'` 98, `'g'` 103, `'q'` 113. -/

/-! ## Data -/

/-- The struct `FileEntry` of the source. -/
structure FileEntry where
  name : String
  is_dir : Bool
deriving DecidableEq, Repr

/-- What `readdir` yields: `d_name`, and whether `d_type == DT_DIR`. -/
structure Dirent where
  d_name : String
  d_is_dir : Bool
deriving DecidableEq, Repr

/-- Observable actions of the program. -/
inductive Event where
  | print (s : String)
  | opendir (path : String)
  | fopen (path : String)
deriving DecidableEq, Repr

/-- The outside world. `char_signed` is the signedness of plain `char` on the
platform (signed on x86 Linux, unsigned on ARM Linux). -/
structure World where
  char_signed : Bool
  stdin : List Byte
  dirs : List (Option (List Dirent))
  fopens : List (Option String)
  winsz : List (Option Nat)
  heap : List Bool
  out : List Event
deriving DecidableEq, Repr

/-- Effect of `printf`: the formatted text is appended to the trace. -/
def World.printf (w : World) (s : String) : World :=
  { w with out := w.out ++ [Event.print s] }

/-- Result of `malloc`: `true` when the allocation succeeds. An exhausted tape
means that memory is available. -/
def World.malloc (w : World) : Bool × World :=
  match w.heap with
  | [] => (true, w)
  | ok :: rest => (ok, { w with heap := rest })

/-- Rendering of `%d`. -/
def fmt_d (x : Int) : String := toString x

/-! ## get_key -/

/-- The call `read(STDIN_FILENO, &c, 1)`: `none` when it does not return 1. -/
def read1 : List Byte → Option Byte × List Byte
  | [] => (none, [])
  | b :: rest => (some b, rest)

/-- Conversion of a `char` holding byte `b` to `int`. -/
def char_to_int (char_signed : Bool) (b : Byte) : Int :=
  if char_signed = true ∧ 128 ≤ b.val then (b.val : Int) - 256 else (b.val : Int)

/-- The function `get_key` on the pending input bytes: the returned `int` and
the bytes left. -/
def get_key (char_signed : Bool) (s : List Byte) : Int × List Byte :=
  match read1 s with
  | (none, s) => (-1, s)
  | (some c, s) =>
    if c = 27 then
      match read1 s with
      | (none, s) => (27, s)
      | (some seq0, s) =>
        match read1 s with
        | (none, s) => (27, s)
        | (some seq1, s) =>
          if seq0 = 91 then
            if seq1 = 65 then (1000, s)
            else if seq1 = 66 then (1001, s)
            else if seq1 = 67 then (1002, s)
            else if seq1 = 68 then (1003, s)
            else (27, s)
          else (27, s)
    else (char_to_int char_signed c, s)

/-- The results of `n` successive calls of `get_key`, and the bytes left. -/
def get_keys (char_signed : Bool) : Nat → List Byte → List Int × List Byte
  | 0, s => ([], s)
  | n + 1, s =>
    let r := get_key char_signed s
    let rs := get_keys char_signed n r.2
    (r.1 :: rs.1, rs.2)

/-- The function `get_key` acting on the world. -/
def World.get_key (w : World) : Int × World :=
  let r := Reader.get_key w.char_signed w.stdin
  (r.1, { w with stdin := r.2 })

/-! ## list_dir -/

/-- Store `x` at index `i` of the array whose initialised part is `a`. -/
def store (a : List FileEntry) (i : Nat) (x : FileEntry) : List FileEntry :=
  a.take i ++ x :: a.drop (i + 1)

/-- The `readdir` loop of `list_dir` over the entries still to be returned. -/
def list_dir_loop : List Dirent → List FileEntry → Nat → List FileEntry × Nat
  | [], files, count => (files, count)
  | e :: rest, files, count =>
    if count < MAX_FILES then
      if e.d_name = "." ∨ e.d_name = ".." then list_dir_loop rest files count
      else
        list_dir_loop rest
          (store files count ⟨String.mk (e.d_name.data.take (MAX_PATH - 1)), e.d_is_dir⟩)
          (count + 1)
    else (files, count)

/-- The function `list_dir`: new contents of `files`, `*count`, and the world. -/
def list_dir (path : String) (files : List FileEntry) (w : World) :
    List FileEntry × Int × World :=
  let w := { w with out := w.out ++ [Event.opendir path] }
  match w.dirs with
  | [] => (files, 0, w.printf ("Cannot open directory: " ++ path ++ "\r\n"))
  | none :: ds =>
    (files, 0, { w with dirs := ds }.printf ("Cannot open directory: " ++ path ++ "\r\n"))
  | some ents :: ds =>
    let r := list_dir_loop ents files 0
    (r.1, (r.2 : Int), { w with dirs := ds })

/-- The function `get_terminal_height`; `ws_row` is an `unsigned short`. -/
def get_terminal_height (w : World) : Int × World :=
  match w.winsz with
  | [] => (24, w)
  | none :: rest => (24, { w with winsz := rest })
  | some rows :: rest => (((rows % 65536 : Nat) : Int), { w with winsz := rest })


/-! ## read_file -/

/-- The call `fopen(path, "r")`: the content of the file, `none` on failure. -/
def World.fopen (w : World) (path : String) : Option String × World :=
  let w := { w with out := w.out ++ [Event.fopen path] }
  match w.fopens with
  | [] => (none, w)
  | r :: rest => (r, { w with fopens := rest })

/-- The buffers filled by the successive calls `fgets(line, size, f)` until it
returns NULL: a call stops after a line feed, after `size - 1` characters, or
at the end of the file. `cur` is what the current call has read so far. -/
def fgets_all (size : Nat) : List Char → List Char → List (List Char)
  | [], cur => if cur = [] then [] else [cur]
  | c :: rest, cur =>
    if c = '\n' ∨ cur.length + 1 = size - 1 then (cur ++ [c]) :: fgets_all size rest []
    else fgets_all size rest (cur ++ [c])

/-- The string a buffer holds: its characters before the first NUL. -/
def c_str (buf : List Char) : List Char :=
  buf.takeWhile (fun c => c ≠ Char.ofNat 0)

/-- What is copied into `lines[line_count]`: the buffer as a string, its last
character removed when that is a line feed. -/
def stored_line (buf : List Char) : String :=
  let l := c_str buf
  if l.getLast? = some '\n' then String.mk l.dropLast else String.mk l

/-- The loop that loads the lines: one `malloc` per line. `none` when an
allocation fails. -/
def load_lines (total_lines : Int) :
    List (List Char) → List String → World → Option (List String) × World
  | [], lines, w => (some lines, w)
  | buf :: rest, lines, w =>
    if (lines.length : Int) < total_lines then
      let m := w.malloc
      if m.1 = true then load_lines total_lines rest (lines ++ [stored_line buf]) m.2
      else (none, m.2)
    else (some lines, w)

/-- The indices `i` for which the print loop of a frame runs its body:
`i < display_lines && scroll_pos + i < line_count`. -/
def frame_indices (line_count scroll_pos display_lines : Int) : List Nat :=
  (List.range display_lines.toNat).takeWhile
    (fun i => decide (scroll_pos + (i : Int) < line_count))

/-- Last line number shown in the header of a frame. -/
def header_last (line_count scroll_pos display_lines : Int) : Int :=
  if scroll_pos + display_lines > line_count then line_count else scroll_pos + display_lines

def RULE : String := "─────────────────────────────────────\r\n"
def CLEAR : String := "\x1b[2J\x1b[H"

/-- One frame of the pager: everything printed before the key is read. The
body of the print loop needs `display_lines > 0`, and `scroll_pos` is negative
only in a session with `display_lines < 0`, so `lines` is read at a
non-negative index. -/
def pager_frame (path : String) (lines : List String) (scroll_pos display_lines : Int)
    (w : World) : World :=
  let line_count : Int := lines.length
  let w := w.printf CLEAR
  let w := w.printf ("File: " ++ path ++ " (lines " ++ fmt_d (scroll_pos + 1) ++ "-"
    ++ fmt_d (header_last line_count scroll_pos display_lines) ++ " of "
    ++ fmt_d line_count ++ ")\r\n")
  let w := w.printf RULE
  let w := (frame_indices line_count scroll_pos display_lines).foldl
    (fun w i => w.printf (lines.getD (scroll_pos + (i : Int)).toNat "" ++ "\r\n")) w
  let w := w.printf RULE
  w.printf "↑↓ scroll | Space/b page | g/G top/bottom | q quit\r\n"

/-- The updates of `scroll_pos` that follow the test for `q` in the paging
loop, in the order of the source. -/
def pager_key (total_lines display_lines key scroll_pos : Int) : Int :=
  let sp := if key = 1000 ∧ scroll_pos > 0 then scroll_pos - 1 else scroll_pos
  let sp := if key = 1001 ∧ sp < total_lines - display_lines then sp + 1 else sp
  let sp :=
    if key = 32 ∧ sp < total_lines - display_lines then
      let s := sp + display_lines
      if s > total_lines - display_lines then total_lines - display_lines else s
    else sp
  let sp :=
    if key = 98 ∧ sp > 0 then
      let s := sp - display_lines
      if s < 0 then 0 else s
    else sp
  let sp := if key = 103 then 0 else sp
  if key = 71 then
    let s := total_lines - display_lines
    if s < 0 then 0 else s
  else sp

/-- The paging loop `while (1)` of `read_file`. -/
def pager_loop (path : String) (lines : List String) (total_lines display_lines : Int) :
    Nat → Int → World → Option World
  | 0, _, _ => none
  | fuel + 1, scroll_pos, w =>
    let w := pager_frame path lines scroll_pos display_lines w
    let k := w.get_key
    if k.1 = 113 ∨ k.1 = 81 then some k.2
    else pager_loop path lines total_lines display_lines fuel
      (pager_key total_lines display_lines k.1 scroll_pos) k.2

/-- The scroll offsets of the paging loop, one after each key event handled,
for the key events `keys` (the loop ends at the first `q` or `Q`). -/
def pager_offsets (total_lines display_lines : Int) : List Int → Int → List Int
  | [], _ => []
  | key :: keys, scroll_pos =>
    if key = 113 ∨ key = 81 then []
    else
      let sp := pager_key total_lines display_lines key scroll_pos
      sp :: pager_offsets total_lines display_lines keys sp

/-- The function `read_file`. -/
def read_file (fuel : Nat) (path : String) (w : World) : Option World :=
  let f := w.fopen path
  match f.1 with
  | none =>
    let w := f.2.printf CLEAR
    let w := w.printf ("Cannot open file: " ++ path ++ "\r\n")
    let w := w.printf "Press any key to go back...\r\n"
    some w.get_key.2
  | some content =>
    let w := f.2
    let bufs := fgets_all MAX_LINE content.data []
    let total_lines : Int := bufs.length
    if total_lines = 0 then
      let w := w.printf CLEAR
      let w := w.printf ("File is empty: " ++ path ++ "\r\n")
      let w := w.printf "Press any key to go back...\r\n"
      some w.get_key.2
    else
      let m := w.malloc
      if m.1 = false then
        let w := m.2.printf CLEAR
        let w := w.printf "Memory allocation failed!\r\n"
        let w := w.printf "Press any key to go back...\r\n"
        some w.get_key.2
      else
        let l := load_lines total_lines bufs [] m.2
        match l.1 with
        | none =>
          let w := l.2.printf CLEAR
          let w := w.printf "Memory allocation failed!\r\n"
          some w.get_key.2
        | some lines =>
          let h := get_terminal_height l.2
          let display_lines := h.1 - 4
          pager_loop path lines total_lines display_lines fuel 0 h.2

/-! ## browse -/

/-- The locals of `browse` that live across iterations of its loop: the
initialised part of the array `files`, and `selected`. -/
structure BState where
  files : List FileEntry
  selected : Int
deriving DecidableEq, Repr

/-- Outcome of one iteration of the loop of `browse`: `return`, or the next
iteration. -/
inductive Step where
  | ret (w : World)
  | cont (st : BState) (w : World)
deriving DecidableEq, Repr

/-- The two updates of `selected` made right after the key is read. -/
def browse_select (count key selected : Int) : Int :=
  let s := if key = 1000 ∧ selected > 0 then selected - 1 else selected
  if key = 1001 ∧ s < count - 1 then s + 1 else s

/-- The loop that prints the entries `i`, `i + 1`, ... of the listing. -/
def print_entries (selected : Int) : List FileEntry → Nat → World → World
  | [], _, w => w
  | f :: rest, i, w =>
    let w := if (i : Int) = selected then w.printf "> " else w.printf "  "
    let w := w.printf (f.name ++ (if f.is_dir = true then "/" else "") ++ "\r\n")
    print_entries selected rest (i + 1) w

/-- The read of `files[selected]`. In the loop of `browse`, `selected` is never
negative and the entry read was written by this or an earlier `list_dir`
(`browse_body_selected_ok`, `browse_select_ok`). -/
def files_at (files : List FileEntry) (selected : Int) : FileEntry :=
  files.getD selected.toNat ⟨"", false⟩

/-- The value `snprintf(fullpath, MAX_PATH, "%s/%s", path, name)` returns. -/
def fullpath_len (path name : String) : Int :=
  ((path.length + 1 + name.length : Nat) : Int)

/-- What `snprintf(fullpath, MAX_PATH, "%s/%s", path, name)` leaves in
`fullpath`: at most `MAX_PATH - 1` characters. -/
def fullpath_of (path name : String) : String :=
  String.mk ((path ++ "/" ++ name).data.take (MAX_PATH - 1))

/-- The screen shown when `count == 0`. -/
def empty_dir_screen (path : String) (w : World) : World :=
  let w := w.printf CLEAR
  let w := w.printf ("Directory: " ++ path ++ "\r\n\n")
  let w := w.printf "(Empty directory)\r\n\n"
  w.printf "Press 'q' to go back\r\n"

/-- The screen that shows the listing: header, the `count` entries, footer. -/
def listing_screen (path : String) (files : List FileEntry) (count selected : Int)
    (w : World) : World :=
  let w := w.printf CLEAR
  let w := w.printf ("Directory: " ++ path ++ " (" ++ fmt_d count ++ " items)\r\n\n")
  let w := print_entries selected (files.take count.toNat) 0 w
  w.printf "\r\n↑↓ navigate | Enter select | q back\r\n"

/-- The screen shown when `len >= MAX_PATH`. -/
def path_too_long_screen (path name : String) (w : World) : World :=
  let w := w.printf CLEAR
  let w := w.printf "Path too long!\r\n"
  let w := w.printf ("Path: " ++ path ++ "/" ++ name ++ "\r\n")
  w.printf "Press any key to continue...\r\n"

/-- What one iteration of the loop of `browse` does once `list_dir` has
returned. `browse_rec` and `pager` stand for the calls `browse(fullpath)` and
`read_file(fullpath)`; they give `none` when the call does not return. -/
def browse_after_list (browse_rec pager : String → World → Option World) (path : String)
    (files : List FileEntry) (count : Int) (selected : Int) (w : World) : Option Step :=
  if count = 0 then
    let k := (empty_dir_screen path w).get_key
    if k.1 = 113 ∨ k.1 = 81 then some (Step.ret k.2)
    else some (Step.cont ⟨files, selected⟩ k.2)
  else
    let k := (listing_screen path files count selected w).get_key
    let key := k.1
    let w := k.2
    let selected := browse_select count key selected
    if key = 113 ∨ key = 81 then some (Step.ret w)
    else if key = 13 ∨ key = 10 ∨ key = 1002 then
      let e := files_at files selected
      let len := fullpath_len path e.name
      let fullpath := fullpath_of path e.name
      if len ≥ (MAX_PATH : Int) then
        some (Step.cont ⟨files, selected⟩ (path_too_long_screen path e.name w).get_key.2)
      else if e.is_dir = true then
        (browse_rec fullpath w).map (fun w => Step.cont ⟨files, 0⟩ w)
      else
        (pager fullpath w).map (fun w => Step.cont ⟨files, selected⟩ w)
    else some (Step.cont ⟨files, selected⟩ w)

/-- One iteration of the loop of `browse`: `list_dir`, then the rest. -/
def browse_body (browse_rec pager : String → World → Option World) (path : String)
    (st : BState) (w : World) : Option Step :=
  let r := list_dir path st.files w
  browse_after_list browse_rec pager path r.1 r.2.1 st.selected r.2.2

/-- The start of `browse`: the allocation of `files`, then the loop, entered
with `selected = 0`. -/
def browse_entry (loop : String → BState → World → Option World) (path : String)
    (w : World) : Option World :=
  let m := w.malloc
  if m.1 = false then some (m.2.printf "Memory allocation failed!\r\n")
  else loop path ⟨[], 0⟩ m.2

/-- The loop `while (1)` of `browse`. The fuel bounds the number of iterations
and the depth of the nested calls. -/
def browse_loop : Nat → String → BState → World → Option World
  | 0, _, _, _ => none
  | fuel + 1, path, st, w =>
    match browse_body (browse_entry (browse_loop fuel)) (read_file fuel) path st w with
    | none => none
    | some (Step.ret w) => some w
    | some (Step.cont st w) => browse_loop fuel path st w

/-- The function `browse`. -/
def browse (fuel : Nat) (path : String) (w : World) : Option World :=
  browse_entry (browse_loop fuel) path w

/-- The state invariant of the loop of `browse` that makes the read of
`files[selected]` a read of initialised memory. -/
def selected_ok (st : BState) : Prop :=
  0 ≤ st.selected ∧ (st.selected = 0 ∨ st.selected < (st.files.length : Int))

/-! ## Raw mode and main -/

/-- The struct `termios`. The flag words are `tcflag_t`, an unsigned integer of
32 bits. -/
structure Termios where
  c_iflag : Nat
  c_oflag : Nat
  c_cflag : Nat
  c_lflag : Nat
  c_line : Nat
  c_cc : List Nat
  c_ispeed : Nat
  c_ospeed : Nat
deriving DecidableEq, Repr

/-- The constants of `termios.h` that the source names. Their values come with
the system headers, not with the repository. -/
structure TermiosConsts where
  ECHO : Nat
  ICANON : Nat
  VMIN : Nat
  VTIME : Nat
deriving DecidableEq, Repr

/-- The values of these constants on Linux. -/
def linux_consts : TermiosConsts := ⟨8, 2, 6, 5⟩

/-- The state of the process around the world of the views: the attributes of
the terminal on standard input (`none` when standard input is not a terminal),
the results of the successive `tcsetattr` calls on a terminal (`true` for
success, also when the tape is exhausted), the global `orig_termios`, how many
times `disable_raw_mode` is registered with `atexit`, and the structs passed to
`tcsetattr` so far. -/
structure Proc where
  world : World
  tty : Option Termios
  tcset : List Bool
  orig_termios : Termios
  at_exit : Nat
  applied : List Termios
deriving DecidableEq, Repr

/-- The call `tcgetattr(STDIN_FILENO, &orig_termios)`; on failure the struct is
left as it was. -/
def tcgetattr_orig (p : Proc) : Proc :=
  match p.tty with
  | none => p
  | some t => { p with orig_termios := t }

/-- The call `tcsetattr(STDIN_FILENO, TCSAFLUSH, &t)`. -/
def tcsetattr (p : Proc) (t : Termios) : Proc :=
  let p := { p with applied := p.applied ++ [t] }
  match p.tty with
  | none => p
  | some _ =>
    match p.tcset with
    | [] => { p with tty := some t }
    | ok :: rest =>
      if ok = true then { p with tty := some t, tcset := rest } else { p with tcset := rest }

/-- The function `disable_raw_mode`. -/
def disable_raw_mode (p : Proc) : Proc :=
  tcsetattr p p.orig_termios

/-- The value `flags & ~mask` for 32-bit unsigned `flags`. -/
def and_not (flags mask : Nat) : Nat :=
  flags &&& (4294967295 ^^^ mask)

/-- The struct `raw` that `enable_raw_mode` builds from `orig_termios`. -/
def raw_termios (K : TermiosConsts) (orig : Termios) : Termios :=
  let raw := orig
  let raw := { raw with c_lflag := and_not raw.c_lflag (K.ECHO ||| K.ICANON) }
  let raw := { raw with c_cc := raw.c_cc.set K.VMIN 1 }
  { raw with c_cc := raw.c_cc.set K.VTIME 0 }

/-- The function `enable_raw_mode`. -/
def enable_raw_mode (K : TermiosConsts) (p : Proc) : Proc :=
  let p := tcgetattr_orig p
  let p := { p with at_exit := p.at_exit + 1 }
  tcsetattr p (raw_termios K p.orig_termios)

/-- What `exit` does with the functions registered with `atexit`: each
registration of `disable_raw_mode` is one call. -/
def run_atexit (p : Proc) : Proc :=
  disable_raw_mode^[p.at_exit] p

/-- The function `main` with `argv` as its arguments: the exit status and the
final state, `none` when `browse` does not return. -/
def main (K : TermiosConsts) (fuel : Nat) (argv : List String) (p : Proc) :
    Option (Int × Proc) :=
  let p := enable_raw_mode K p
  let start_path := if argv.length > 1 then argv.getD 1 "." else "."
  match browse fuel start_path p.world with
  | none => none
  | some w =>
    let w := w.printf CLEAR
    let w := w.printf "Exiting.\r\n"
    some (0, run_atexit { p with world := w })

/-- A terminal in canonical mode with echo, as `stty` shows it on Linux. -/
def cooked : Termios :=
  ⟨17664, 5, 191, 35387, 0,
   [3, 28, 127, 21, 4, 0, 1, 0, 17, 19, 26, 0, 18, 15, 23, 22, 0, 0, 0, 0, 0, 0, 0, 0, 0, 0,
    0, 0, 0, 0, 0, 0], 15, 15⟩

/-- The state of a process at its start: nothing registered, nothing applied,
`orig_termios` zeroed. -/
def Proc.start (w : World) (tty : Option Termios) (tcset : List Bool) : Proc :=
  ⟨w, tty, tcset, ⟨0, 0, 0, 0, 0, List.replicate 32 0, 0, 0⟩, 0, []⟩

/-! ## Example data -/

/-- A world whose tapes are all empty, on a platform where plain `char` is
signed. -/
def World.blank : World := ⟨true, [], [], [], [], [], []⟩

/-- A one-line file paged on a terminal that reports zero rows; the keys are
Space, then `q`. -/
def zero_rows_world : World :=
  { World.blank with fopens := [some "x\n"], winsz := [some 0], stdin := [32, 113] }

def entry_a : FileEntry := ⟨"a", false⟩
def entry_b : FileEntry := ⟨"b", false⟩
def entry_c : FileEntry := ⟨"c", false⟩

/-- A directory that holds `a`, `b`, `c` at the first two enumerations and only
`a` afterwards; the keys are ArrowDown, ArrowDown, Enter, `x`, `q`. -/
def shrinking_world : World :=
  { World.blank with
    dirs := [some [⟨".", true⟩, ⟨"..", true⟩, ⟨"a", false⟩, ⟨"b", false⟩, ⟨"c", false⟩],
             some [⟨"a", false⟩, ⟨"b", false⟩, ⟨"c", false⟩],
             some [⟨"a", false⟩], some [⟨"a", false⟩]],
    stdin := [27, 91, 66, 27, 91, 66, 13, 120, 113] }

/-- A path that cannot be opened, twice; the keys are `x`, then `q`. -/
def unreadable_world : World :=
  { World.blank with dirs := [none, none], stdin := [120, 113] }

/-- A directory `d` that holds the file `b.txt` and the directory `a_dir`, which
cannot be opened; the keys are Enter, `q`, `q`. -/
def enter_dir_world : World :=
  { World.blank with
    dirs := [some [⟨"b.txt", false⟩, ⟨"a_dir", true⟩], none,
             some [⟨"b.txt", false⟩, ⟨"a_dir", true⟩]],
    stdin := [13, 113, 113] }

/-- A path of 4095 characters. -/
def long_path : String := String.mk (List.replicate 4095 'p')

/-- The listing as the specification words it: the entries whose name is neither
`.` nor `..`, in enumeration order, the first `MAX_FILES` of them, each with its
name and its directory flag. -/
def spec_listing (ents : List Dirent) : List FileEntry :=
  ((ents.filter (fun e => decide (e.d_name ≠ "." ∧ e.d_name ≠ ".."))).take MAX_FILES).map
    (fun e => ⟨e.d_name, e.d_is_dir⟩)

/-- The file of the pager scenario, `line1\nline2\nline3\n`, opened on a
terminal of 6 rows; the keys are Space, then `q`. -/
def three_lines_world : World :=
  { World.blank with fopens := [some "line1\nline2\nline3\n"], winsz := [some 6],
                     stdin := [32, 113] }

/-- A directory `d` that holds the files `b.txt` and `f.txt`, the latter being
the file of the pager scenario; the keys are ArrowDown, Enter, Space, `q`, `q`. -/
def pager_scenario_world : World :=
  { World.blank with
    dirs := [some [⟨"b.txt", false⟩, ⟨"f.txt", false⟩],
             some [⟨"b.txt", false⟩, ⟨"f.txt", false⟩],
             some [⟨"b.txt", false⟩, ⟨"f.txt", false⟩]],
    fopens := [some "line1\nline2\nline3\n"], winsz := [some 6],
    stdin := [27, 91, 66, 13, 32, 113, 113] }

/-- The lines of a text as the specification words them: the content split at
line feeds, in file order, each line without its line feed; a final line
without line feed counts as one line. -/
def spec_lines : List Char → List (List Char)
  | [] => []
  | c :: rest =>
    if c = '\n' then [] :: spec_lines rest
    else
      match spec_lines rest with
      | [] => [[c]]
      | l :: ls => (c :: l) :: ls

/-- The lines of `spec_lines` when the characters `cur` come before the text, on
its first line. -/
def with_line_start (cur : List Char) : List (List Char) → List (List Char)
  | [] => if cur = [] then [] else [cur]
  | l :: ls => (cur ++ l) :: ls

/-- A file of one line of 511 letters, ended by a line feed. -/
def long_line : String := String.mk (List.replicate 511 'a' ++ ['\n'])

/-! ## The key decoder -/

theorem get_key_nil (sg : Bool) : get_key sg [] = (-1, []) := rfl

theorem get_key_char (sg : Bool) (b : Byte) (rest : List Byte) (h : b ≠ 27) :
    get_key sg (b :: rest) = (char_to_int sg b, rest) := by
  simp [get_key, read1, h]

theorem get_key_esc3 (sg : Bool) (x y : Byte) (rest : List Byte) :
    get_key sg (27 :: x :: y :: rest) =
      (if x = 91 then
        if y = 65 then 1000 else if y = 66 then 1001 else if y = 67 then 1002
        else if y = 68 then 1003 else 27
       else 27, rest) := by
  simp only [get_key, read1]
  split_ifs <;> simp_all

theorem char_to_int_eq_neg_one (sg : Bool) (b : Byte) :
    char_to_int sg b = -1 ↔ (sg = true ∧ b = 255) := by
  unfold char_to_int
  have hb := b.isLt
  constructor
  · intro h
    split_ifs at h with hc
    refine ⟨hc.1, ?_⟩
    apply Fin.ext
    show b.val = 255
    omega
  · rintro ⟨h1, h2⟩
    subst h2
    subst h1
    decide

/-- C2: when the first byte is 0x1B, `get_key` returns 1000, 1001, 1002 or
1003 exactly when the next two bytes are `[` (91) followed by `A`, `B`, `C` or
`D` (65 to 68) respectively, and returns 27 in every other case, also when
fewer than two further bytes can be read. -/
theorem get_key_escape_decoding (sg : Bool) (rest : List Byte) :
    ((get_key sg (27 :: rest)).1 = 1000 ↔ ∃ t, rest = 91 :: 65 :: t) ∧
    ((get_key sg (27 :: rest)).1 = 1001 ↔ ∃ t, rest = 91 :: 66 :: t) ∧
    ((get_key sg (27 :: rest)).1 = 1002 ↔ ∃ t, rest = 91 :: 67 :: t) ∧
    ((get_key sg (27 :: rest)).1 = 1003 ↔ ∃ t, rest = 91 :: 68 :: t) ∧
    ((get_key sg (27 :: rest)).1 = 27 ↔
      ¬ ∃ c t, rest = 91 :: c :: t ∧ (c = 65 ∨ c = 66 ∨ c = 67 ∨ c = 68)) ∧
    (rest.length < 2 → (get_key sg (27 :: rest)).1 = 27) := by
  rcases rest with _ | ⟨x, _ | ⟨y, t⟩⟩
  · simp [get_key, read1]
  · simp [get_key, read1]
  · rw [get_key_esc3]
    by_cases hx : x = 91
    · subst hx
      by_cases h1 : y = 65
      · subst h1; simp
      by_cases h2 : y = 66
      · subst h2; simp
      by_cases h3 : y = 67
      · subst h3; simp
      by_cases h4 : y = 68
      · subst h4; simp
      simp [h1, h2, h3, h4]
    · simp [hx]

/-- C3, at the failing input: where plain `char` is signed, the single input
byte 0xFF makes `get_key` return -1, the value it returns when the first read
fails. A first byte other than ESC is returned as the `int` value of the `char`
that holds it, which is negative for bytes from 0x80 on where `char` is signed;
over all platforms and first bytes, -1 is returned for a readable first byte
exactly when `char` is signed and the byte is 0xFF. -/
theorem get_key_byte_ff_is_input_closed :
    get_key true [255] = (-1, []) ∧ get_key true [] = (-1, []) ∧
    (∀ (sg : Bool) (b : Byte) (rest : List Byte), b ≠ 27 →
      (get_key sg (b :: rest)).1 =
        if sg = true ∧ 128 ≤ b.val then (b.val : Int) - 256 else (b.val : Int)) ∧
    ∀ (sg : Bool) (b : Byte) (rest : List Byte),
      (get_key sg (b :: rest)).1 = -1 ↔ (sg = true ∧ b = 255) := by
  refine ⟨by decide, by decide, fun sg b rest hb => by rw [get_key_char sg b rest hb]; rfl, ?_⟩
  intro sg b rest
  by_cases hb : b = 27
  · subst hb
    have h1 : ¬ ((27 : Byte) = 255) := by decide
    have hx : (get_key sg (27 :: rest)).1 ≠ -1 := by
      rcases rest with _ | ⟨x, _ | ⟨y, t⟩⟩
      · simp [get_key, read1]
      · simp [get_key, read1]
      · rw [get_key_esc3]
        split_ifs <;> simp
    simp [hx, h1]
  · rw [get_key_char sg b rest hb]
    exact char_to_int_eq_neg_one sg b

/-- C4: one call of `get_key` consumes exactly one byte when the first byte is
not 0x1B, and exactly three bytes when the first is 0x1B and two more are
there; it then returns 27 or an arrow code, never a continuation byte, and the
following calls decode the input from the fourth byte on. -/
theorem get_key_consumption (sg : Bool) (b x y : Byte) (rest : List Byte) (n : Nat)
    (hb : b ≠ 27) :
    get_key sg (b :: rest) = (char_to_int sg b, rest) ∧
    (get_key sg (27 :: x :: y :: rest)).2 = rest ∧
    (get_key sg (27 :: x :: y :: rest)).1 ∈ [27, 1000, 1001, 1002, 1003] ∧
    ((¬ (x = 91 ∧ (y = 65 ∨ y = 66 ∨ y = 67 ∨ y = 68))) →
      (get_key sg (27 :: x :: y :: rest)).1 = 27) ∧
    get_keys sg (n + 1) (b :: rest) =
      (char_to_int sg b :: (get_keys sg n rest).1, (get_keys sg n rest).2) ∧
    get_keys sg (n + 1) (27 :: x :: y :: rest) =
      ((get_key sg (27 :: x :: y :: rest)).1 :: (get_keys sg n rest).1,
        (get_keys sg n rest).2) ∧
    get_keys sg 4 [27, 91, 49, 59, 53, 65] = ([27, 59, 53, 65], []) := by
  refine ⟨get_key_char sg b rest hb, ?_, ?_, ?_, ?_, ?_, ?_⟩
  · rw [get_key_esc3]
  · rw [get_key_esc3]
    split_ifs <;> simp
  · intro h
    rw [get_key_esc3]
    split_ifs <;> simp_all
  · simp [get_keys, get_key_char sg b rest hb]
  · simp [get_keys, get_key_esc3]
  · cases sg <;> decide

theorem get_key_consumption_witness :
    (59 : Byte) ≠ 27 ∧
    get_keys true 3 [59, 53, 65] = ([59, 53, 65], []) ∧
    get_keys true 3 [27, 91, 49, 53, 65] = ([27, 53, 65], []) :=
  ⟨by decide,
   by
    have h := (get_key_consumption true 59 91 49 [53, 65] 2 (by decide)).2.2.2.2.1
    rw [h]; decide,
   by
    have h := (get_key_consumption true 59 91 49 [53, 65] 2 (by decide)).2.2.2.2.2.1
    rw [h]; decide⟩

/-! ## The pager -/


theorem pager_key_up (total dl sp : Int) :
    pager_key total dl 1000 sp = if sp > 0 then sp - 1 else sp := by
  simp [pager_key]

theorem pager_key_down (total dl sp : Int) :
    pager_key total dl 1001 sp = if sp < total - dl then sp + 1 else sp := by
  simp [pager_key]

theorem pager_key_space (total dl sp : Int) :
    pager_key total dl 32 sp =
      if sp < total - dl then
        (if sp + dl > total - dl then total - dl else sp + dl)
      else sp := by
  simp [pager_key]

theorem pager_key_b (total dl sp : Int) :
    pager_key total dl 98 sp =
      if sp > 0 then (if sp - dl < 0 then 0 else sp - dl) else sp := by
  simp [pager_key]

theorem pager_key_g (total dl sp : Int) : pager_key total dl 103 sp = 0 := by
  simp [pager_key]

theorem pager_key_G (total dl sp : Int) :
    pager_key total dl 71 sp = if total - dl < 0 then 0 else total - dl := by
  simp [pager_key]

theorem pager_key_other (total dl key sp : Int) (h1 : key ≠ 1000) (h2 : key ≠ 1001)
    (h3 : key ≠ 32) (h4 : key ≠ 98) (h5 : key ≠ 103) (h6 : key ≠ 71) :
    pager_key total dl key sp = sp := by
  simp [pager_key, h1, h2, h3, h4, h5, h6]

theorem pager_key_bounds (total dl key sp : Int) (hdl : 0 ≤ dl) (h0 : 0 ≤ sp)
    (h1 : sp ≤ max 0 (total - dl)) :
    0 ≤ pager_key total dl key sp ∧ pager_key total dl key sp ≤ max 0 (total - dl) := by
  by_cases k1 : key = 1000
  · subst k1; rw [pager_key_up]; split_ifs <;> omega
  by_cases k2 : key = 1001
  · subst k2; rw [pager_key_down]; split_ifs <;> omega
  by_cases k3 : key = 32
  · subst k3; rw [pager_key_space]; split_ifs <;> omega
  by_cases k4 : key = 98
  · subst k4; rw [pager_key_b]; split_ifs <;> omega
  by_cases k5 : key = 103
  · subst k5; rw [pager_key_g]; omega
  by_cases k6 : key = 71
  · subst k6; rw [pager_key_G]; split_ifs <;> omega
  rw [pager_key_other total dl key sp k1 k2 k3 k4 k5 k6]
  exact ⟨h0, h1⟩

theorem pager_offsets_bounds (total dl : Int) (hdl : 0 ≤ dl) (keys : List Int) :
    ∀ sp : Int, 0 ≤ sp → sp ≤ max 0 (total - dl) →
      ∀ o ∈ pager_offsets total dl keys sp, 0 ≤ o ∧ o ≤ max 0 (total - dl) := by
  induction keys with
  | nil => intro sp _ _ o ho; simp [pager_offsets] at ho
  | cons k ks ih =>
    intro sp h0 h1 o ho
    unfold pager_offsets at ho
    split_ifs at ho with hq
    · simp at ho
    · have hb := pager_key_bounds total dl k sp hdl h0 h1
      rcases List.mem_cons.1 ho with h | h
      · rw [h]; exact hb
      · exact ih _ hb.1 hb.2 o h


/-! ### Printing leaves the input untouched -/

theorem printf_eq (w : World) (s : String) :
    w.printf s = { w with out := (w.printf s).out } := rfl

theorem foldl_printf_eq (f : Nat → String) (l : List Nat) (w : World) :
    l.foldl (fun w i => w.printf (f i)) w =
      { w with out := (l.foldl (fun w i => w.printf (f i)) w).out } := by
  induction l generalizing w with
  | nil => rfl
  | cons i l ih =>
    simp only [List.foldl_cons]
    rw [ih (w.printf (f i))]
    rfl

theorem pager_frame_eq (path : String) (lines : List String) (sp dl : Int) (w : World) :
    pager_frame path lines sp dl w =
      { w with out := (pager_frame path lines sp dl w).out } := by
  unfold pager_frame
  simp only []
  generalize hW : ((w.printf CLEAR).printf _).printf RULE = w3
  have h3 : w3 = { w with out := w3.out } := by rw [← hW]; rfl
  rw [foldl_printf_eq (fun i => lines.getD (sp + (i : Int)).toNat "" ++ "\r\n") _ w3]
  generalize (List.foldl _ w3 _).out = o
  rw [h3]
  rfl

theorem get_key_world (w : World) (o : List Event) (key : Int) (ks : List Byte)
    (hk : get_key w.char_signed w.stdin = (key, ks)) :
    World.get_key { w with out := o } = (key, { w with out := o, stdin := ks }) := by
  simp [World.get_key, hk]

theorem pager_loop_step (path : String) (lines : List String) (total dl sp : Int)
    (fuel : Nat) (w : World) (key : Int) (ks : List Byte)
    (hk : get_key w.char_signed w.stdin = (key, ks)) :
    pager_loop path lines total dl (fuel + 1) sp w =
      if key = 113 ∨ key = 81 then
        some { pager_frame path lines sp dl w with stdin := ks }
      else
        pager_loop path lines total dl fuel (pager_key total dl key sp)
          { pager_frame path lines sp dl w with stdin := ks } := by
  rw [pager_loop]
  simp only []
  rw [pager_frame_eq, get_key_world w _ key ks hk]


/-- The paging loop follows `pager_offsets`: when the input decodes to the key
events `keys`, none of them `q` or `Q`, the loop handles them in `keys.length`
iterations and goes on at the last offset of `pager_offsets`. -/
theorem pager_loop_run (path : String) (lines : List String) (total dl : Int)
    (keys : List Int) :
    ∀ (fuel : Nat) (sp : Int) (w : World) (rest : List Byte),
      get_keys w.char_signed keys.length w.stdin = (keys, rest) →
      (∀ k ∈ keys, ¬ (k = 113 ∨ k = 81)) →
      ∃ w1, w1.stdin = rest ∧ w1.char_signed = w.char_signed ∧
        pager_loop path lines total dl (keys.length + fuel) sp w =
          pager_loop path lines total dl fuel
            ((sp :: pager_offsets total dl keys sp).getLast (List.cons_ne_nil _ _)) w1 := by
  induction keys with
  | nil =>
    intro fuel sp w rest hk _
    refine ⟨w, ?_, rfl, ?_⟩
    · simp only [List.length_nil, get_keys, Prod.mk.injEq] at hk
      exact hk.2
    · simp [pager_offsets]
  | cons k ks ih =>
    intro fuel sp w rest hk hq
    rcases hg : get_key w.char_signed w.stdin with ⟨k1, s1⟩
    simp only [List.length_cons, get_keys, hg, Prod.mk.injEq, List.cons.injEq] at hk
    obtain ⟨⟨hk1, hks⟩, hrest⟩ := hk
    subst hk1
    have hnq : ¬ (k1 = 113 ∨ k1 = 81) := hq k1 (List.mem_cons_self _ _)
    have hstep := pager_loop_step path lines total dl sp (ks.length + fuel) w k1 s1 hg
    rw [if_neg hnq] at hstep
    have hcs : ({ pager_frame path lines sp dl w with stdin := s1 } : World).char_signed
        = w.char_signed := by
      rw [pager_frame_eq]
    obtain ⟨w1, h1, h2, h3⟩ := ih fuel (pager_key total dl k1 sp)
      { pager_frame path lines sp dl w with stdin := s1 } rest
      (by rw [hcs]; exact Prod.ext hks hrest)
      (fun k hk => hq k (List.mem_cons_of_mem _ hk))
    refine ⟨w1, h1, h2.trans hcs, ?_⟩
    have hlen : (k1 :: ks).length + fuel = ks.length + fuel + 1 := by
      simp only [List.length_cons]; omega
    rw [hlen, hstep, h3]
    congr 1
    rw [pager_offsets, if_neg hnq]
    simp only []
    rw [List.getLast_cons (List.cons_ne_nil _ _)]

/-- Scroll invariant of the paging loop on a terminal of four rows or more
(`display_lines >= 0`): every offset reached from offset 0 lies between 0 and
`max 0 (total_lines - display_lines)`. -/
theorem pager_offsets_in_bounds (total term_height : Int) (keys : List Int)
    (hh : 4 ≤ term_height) :
    ∀ o ∈ pager_offsets total (term_height - 4) keys 0,
      0 ≤ o ∧ o ≤ max 0 (total - (term_height - 4)) :=
  pager_offsets_bounds total (term_height - 4) (by omega) keys 0 (le_refl 0) (le_max_left _ _)

/-- C1, at the failing input: a one-line file on a terminal that reports zero
rows gives `display_lines = -4`; one Space from offset 0 gives offset -4, below
0, and the next frame says so in its header; five ArrowDown and one `b` give
offset 9, above `max 0 (1 - (-4)) = 5`. -/
theorem read_file_zero_rows_offset_out_of_bounds :
    (get_terminal_height zero_rows_world).1 - 4 = -4 ∧
    pager_offsets 1 (-4) [32] 0 = [-4] ∧
    pager_offsets 1 (-4) [1001, 1001, 1001, 1001, 1001, 98] 0 = [1, 2, 3, 4, 5, 9] ∧
    max (0 : Int) (1 - (-4)) = 5 ∧
    ∃ w, read_file 2 "f" zero_rows_world = some w ∧
      Event.print "File: f (lines -3--8 of 1)\r\n" ∈ w.out :=
  ⟨by decide, by decide, by decide, by decide, _, rfl, by decide⟩

/-- C10: the Space key sets the offset to
`min (offset + display_lines) (total_lines - display_lines)` when
`offset < total_lines - display_lines` and leaves it unchanged otherwise, and
the paging loop goes on with that offset; with 3 lines and a viewport of 2, one
Space from offset 0 gives offset 1. -/
theorem pager_page_down (path : String) (lines : List String) (total dl sp : Int)
    (fuel : Nat) (w : World) (ks : List Byte)
    (hk : get_key w.char_signed w.stdin = (32, ks)) :
    pager_key total dl 32 sp =
      (if sp < total - dl then min (sp + dl) (total - dl) else sp) ∧
    pager_loop path lines total dl (fuel + 1) sp w =
      pager_loop path lines total dl fuel
        (if sp < total - dl then min (sp + dl) (total - dl) else sp)
        { pager_frame path lines sp dl w with stdin := ks } ∧
    pager_key 3 2 32 0 = 1 := by
  have h1 : pager_key total dl 32 sp =
      (if sp < total - dl then min (sp + dl) (total - dl) else sp) := by
    rw [pager_key_space]
    split_ifs <;> omega
  refine ⟨h1, ?_, by decide⟩
  rw [pager_loop_step path lines total dl sp fuel w 32 ks hk, ← h1]
  simp

theorem pager_page_down_witness :
    pager_key 3 2 32 0 = (if (0 : Int) < 3 - 2 then min (0 + 2) (3 - 2) else 0) ∧
    pager_loop "f" ["line1", "line2", "line3"] 3 2 2 0
        { World.blank with stdin := [32, 113] } =
      pager_loop "f" ["line1", "line2", "line3"] 3 2 1
        (if (0 : Int) < 3 - 2 then min (0 + 2) (3 - 2) else 0)
        { pager_frame "f" ["line1", "line2", "line3"] 0 2
            { World.blank with stdin := [32, 113] } with stdin := [113] } ∧
    pager_key 3 2 32 0 = 1 :=
  pager_page_down "f" ["line1", "line2", "line3"] 3 2 0 1
    { World.blank with stdin := [32, 113] } [113] (by decide)

/-! ## The browser -/

theorem print_entries_eq (sel : Int) (l : List FileEntry) (i : Nat) (w : World) :
    print_entries sel l i w = { w with out := (print_entries sel l i w).out } := by
  induction l generalizing i w with
  | nil => rfl
  | cons f l ih =>
    simp only [print_entries]
    rw [ih]
    split_ifs <;> rfl

theorem listing_screen_eq (path : String) (files : List FileEntry) (count sel : Int)
    (w : World) :
    listing_screen path files count sel w =
      { w with out := (listing_screen path files count sel w).out } := by
  unfold listing_screen
  simp only []
  rw [print_entries_eq]
  rfl

theorem empty_dir_screen_eq (path : String) (w : World) :
    empty_dir_screen path w = { w with out := (empty_dir_screen path w).out } := rfl

theorem path_too_long_screen_eq (path name : String) (w : World) :
    path_too_long_screen path name w =
      { w with out := (path_too_long_screen path name w).out } := rfl

theorem fullpath_len_eq (path name : String) :
    fullpath_len path name = ((path ++ "/" ++ name).length : Int) := by
  simp [fullpath_len, String.length_append]
  rfl

theorem fullpath_of_fits (path name : String) (h : (path ++ "/" ++ name).length < MAX_PATH) :
    fullpath_of path name = path ++ "/" ++ name := by
  unfold fullpath_of
  have h2 : (path ++ "/" ++ name).data.length ≤ MAX_PATH - 1 := by
    have : (path ++ "/" ++ name).data.length = (path ++ "/" ++ name).length := rfl
    omega
  rw [List.take_of_length_le h2]

theorem browse_after_list_empty (R P : String → World → Option World) (path : String)
    (files : List FileEntry) (sel : Int) (w : World) (key : Int) (ks : List Byte)
    (hk : get_key w.char_signed w.stdin = (key, ks)) :
    browse_after_list R P path files 0 sel w =
      if key = 113 ∨ key = 81 then some (Step.ret { empty_dir_screen path w with stdin := ks })
      else some (Step.cont ⟨files, sel⟩ { empty_dir_screen path w with stdin := ks }) := by
  unfold browse_after_list
  simp only [if_true]
  rw [empty_dir_screen_eq, get_key_world w _ key ks hk]

theorem browse_after_list_nonempty (R P : String → World → Option World) (path : String)
    (files : List FileEntry) (count sel : Int) (w : World) (key : Int) (ks : List Byte)
    (hc : count ≠ 0) (hk : get_key w.char_signed w.stdin = (key, ks)) :
    browse_after_list R P path files count sel w =
      if key = 113 ∨ key = 81 then
        some (Step.ret { listing_screen path files count sel w with stdin := ks })
      else if key = 13 ∨ key = 10 ∨ key = 1002 then
        if fullpath_len path (files_at files (browse_select count key sel)).name
            ≥ (MAX_PATH : Int) then
          some (Step.cont ⟨files, browse_select count key sel⟩
            (path_too_long_screen path (files_at files (browse_select count key sel)).name
              { listing_screen path files count sel w with stdin := ks }).get_key.2)
        else if (files_at files (browse_select count key sel)).is_dir = true then
          (R (fullpath_of path (files_at files (browse_select count key sel)).name)
            { listing_screen path files count sel w with stdin := ks }).map
              (fun w => Step.cont ⟨files, 0⟩ w)
        else
          (P (fullpath_of path (files_at files (browse_select count key sel)).name)
            { listing_screen path files count sel w with stdin := ks }).map
              (fun w => Step.cont ⟨files, browse_select count key sel⟩ w)
      else
        some (Step.cont ⟨files, browse_select count key sel⟩
          { listing_screen path files count sel w with stdin := ks }) := by
  unfold browse_after_list
  simp only [if_neg hc]
  rw [listing_screen_eq, get_key_world w _ key ks hk]

theorem browse_select_up (count s : Int) :
    browse_select count 1000 s = if s > 0 then s - 1 else s := by
  simp [browse_select]

theorem browse_select_down (count s : Int) :
    browse_select count 1001 s = if s < count - 1 then s + 1 else s := by
  simp [browse_select]

theorem browse_select_other (count key s : Int) (h1 : key ≠ 1000) (h2 : key ≠ 1001) :
    browse_select count key s = s := by
  simp [browse_select, h1, h2]

theorem browse_select_down_iter (count : Int) (n : Nat) :
    ∀ s : Int, 0 ≤ s → s < count →
      (browse_select count 1001)^[n] s = min (s + n) (count - 1) := by
  induction n with
  | zero => intro s h0 h1; simp; omega
  | succ n ih =>
    intro s h0 h1
    rw [Function.iterate_succ_apply, browse_select_down]
    split_ifs with h
    · rw [ih (s + 1) (by omega) (by omega)]; push_cast; omega
    · rw [ih s h0 h1]; push_cast; omega

theorem browse_select_up_iter (count : Int) (n : Nat) :
    ∀ s : Int, 0 ≤ s →
      (browse_select count 1000)^[n] s = max 0 (s - n) := by
  induction n with
  | zero => intro s h0; simp; omega
  | succ n ih =>
    intro s h0
    rw [Function.iterate_succ_apply, browse_select_up]
    split_ifs with h
    · rw [ih (s - 1) (by omega)]; push_cast; omega
    · rw [ih s h0]; push_cast; omega


theorem store_length (a : List FileEntry) (i : Nat) (x : FileEntry) (h : i ≤ a.length) :
    i + 1 ≤ (store a i x).length := by
  simp [store]
  omega

theorem list_dir_loop_count_le (ents : List Dirent) :
    ∀ (files : List FileEntry) (c : Nat), c ≤ files.length →
      (list_dir_loop ents files c).2 ≤ (list_dir_loop ents files c).1.length := by
  induction ents with
  | nil => intro files c h; simpa [list_dir_loop] using h
  | cons e rest ih =>
    intro files c h
    unfold list_dir_loop
    split_ifs
    · exact ih files c h
    · exact ih _ _ (store_length files c _ h)
    · exact h

theorem list_dir_count_le (path : String) (files0 files : List FileEntry) (count : Int)
    (w wl : World) (hl : list_dir path files0 w = (files, count, wl)) :
    count.toNat ≤ files.length := by
  unfold list_dir at hl
  simp only [] at hl
  split at hl
  · simp only [Prod.mk.injEq] at hl
    rw [← hl.2.1]; simp
  · simp only [Prod.mk.injEq] at hl
    rw [← hl.2.1]; simp
  · simp only [Prod.mk.injEq] at hl
    rw [← hl.2.1, ← hl.1]
    simpa using list_dir_loop_count_le _ files0 0 (Nat.zero_le _)

theorem files_at_listing (files : List FileEntry) (count sel : Int)
    (hlen : count.toNat ≤ files.length) (h0 : 0 ≤ sel) (h1 : sel < count) :
    (files.take count.toNat)[sel.toNat]? = some (files_at files sel) := by
  have hs : sel.toNat < count.toNat := by omega
  have hs2 : sel.toNat < files.length := by omega
  rw [List.getElem?_take_of_lt hs]
  simp [files_at, List.getD, List.getElem?_eq_getElem hs2]




theorem get_key_world_eq (w : World) (o : List Event) :
    World.get_key { w with out := o } =
      ((get_key w.char_signed w.stdin).1,
        { w with out := o, stdin := (get_key w.char_signed w.stdin).2 }) := rfl

/-- C5: in a listing of `count >= 1` entries with `0 <= s < count`, ArrowUp
maps the selection `s` to `max 0 (s - 1)` and ArrowDown maps it to
`min (s + 1) (count - 1)`, in `browse_select` and in the iteration of `browse`
that reads the key; after `n` ArrowDown the selection is
`min (s + n) (count - 1)`, never above `count - 1`, and after `n` ArrowUp it is
`max 0 (s - n)`, which is 0 from `n = s` on. -/
theorem browse_selection_clamps (count s : Int) (n : Nat)
    (hc : 1 ≤ count) (h0 : 0 ≤ s) (h1 : s < count) :
    browse_select count 1000 s = max 0 (s - 1) ∧
    browse_select count 1001 s = min (s + 1) (count - 1) ∧
    (browse_select count 1001)^[n] s = min (s + n) (count - 1) ∧
    (browse_select count 1001)^[n] s ≤ count - 1 ∧
    (browse_select count 1000)^[n] s = max 0 (s - n) ∧
    (s ≤ n → (browse_select count 1000)^[n] s = 0) ∧
    (∀ (R P : String → World → Option World) (path : String) (files : List FileEntry)
      (w : World) (ks : List Byte),
      (get_key w.char_signed w.stdin = (1000, ks) →
        browse_after_list R P path files count s w =
          some (Step.cont ⟨files, max 0 (s - 1)⟩
            { listing_screen path files count s w with stdin := ks })) ∧
      (get_key w.char_signed w.stdin = (1001, ks) →
        browse_after_list R P path files count s w =
          some (Step.cont ⟨files, min (s + 1) (count - 1)⟩
            { listing_screen path files count s w with stdin := ks }))) := by
  have hup : browse_select count 1000 s = max 0 (s - 1) := by
    rw [browse_select_up]; split_ifs <;> omega
  have hdown : browse_select count 1001 s = min (s + 1) (count - 1) := by
    rw [browse_select_down]; split_ifs <;> omega
  have hd := browse_select_down_iter count n s h0 h1
  have hu := browse_select_up_iter count n s h0
  refine ⟨hup, hdown, hd, by rw [hd]; omega, hu, fun h => by rw [hu]; omega, ?_⟩
  intro R P path files w ks
  constructor
  · intro hk
    rw [browse_after_list_nonempty R P path files count s w 1000 ks (by omega) hk, hup]
    simp
  · intro hk
    rw [browse_after_list_nonempty R P path files count s w 1001 ks (by omega) hk, hdown]
    simp

theorem browse_selection_clamps_witness :
    (browse_select 2 1001)^[5] 0 = 1 ∧ (browse_select 2 1000)^[5] 0 = 0 :=
  ⟨(browse_selection_clamps 2 0 5 (by decide) (by decide) (by decide)).2.2.1.trans (by decide),
   (browse_selection_clamps 2 0 5 (by decide) (by decide) (by decide)).2.2.2.2.1.trans
     (by decide)⟩

theorem browse_loop_succ (fuel : Nat) (path : String) (st : BState) (w : World) :
    browse_loop (fuel + 1) path st w =
      match browse_after_list (browse fuel) (read_file fuel) path
          (list_dir path st.files w).1 (list_dir path st.files w).2.1 st.selected
          (list_dir path st.files w).2.2 with
      | none => none
      | some (Step.ret w) => some w
      | some (Step.cont st w) => browse_loop fuel path st w := rfl

theorem select_enter (count key s : Int) (hkey : key = 13 ∨ key = 10 ∨ key = 1002) :
    browse_select count key s = s := by
  apply browse_select_other <;> omega

/-- C8: in an iteration of `browse` whose listing has `count > 0` entries, with
a valid selection, a key Enter or ArrowRight and a full path that fits: the
entry read is entry number `selected` of the listing; when it is a directory,
`browse` runs a nested `browse` on `path/name` and, when that returns, goes on
with `selected = 0`; when it is a file, `browse` runs `read_file` on
`path/name` and, when that returns, goes on with `selected` unchanged; and
every iteration it goes on with starts by calling `list_dir` again. -/
theorem browse_enter_selection (fuel : Nat) (path : String) (st : BState) (w wl : World)
    (files : List FileEntry) (count key : Int) (ks : List Byte)
    (hl : list_dir path st.files w = (files, count, wl))
    (hc : 0 < count) (h0 : 0 ≤ st.selected) (h1 : st.selected < count)
    (hk : get_key wl.char_signed wl.stdin = (key, ks))
    (hkey : key = 13 ∨ key = 10 ∨ key = 1002)
    (hfit : (path ++ "/" ++ (files_at files st.selected).name).length < MAX_PATH) :
    (files.take count.toNat)[st.selected.toNat]? = some (files_at files st.selected) ∧
    ((files_at files st.selected).is_dir = true →
      browse_loop (fuel + 1) path st w =
        (browse fuel (path ++ "/" ++ (files_at files st.selected).name)
          { listing_screen path files count st.selected wl with stdin := ks }).bind
          (fun w1 => browse_loop fuel path ⟨files, 0⟩ w1)) ∧
    ((files_at files st.selected).is_dir = false →
      browse_loop (fuel + 1) path st w =
        (read_file fuel (path ++ "/" ++ (files_at files st.selected).name)
          { listing_screen path files count st.selected wl with stdin := ks }).bind
          (fun w1 => browse_loop fuel path ⟨files, st.selected⟩ w1)) ∧
    (∀ (f : Nat) (s1 : BState) (w1 : World),
      browse_loop (f + 1) path s1 w1 =
        match browse_after_list (browse f) (read_file f) path
            (list_dir path s1.files w1).1 (list_dir path s1.files w1).2.1 s1.selected
            (list_dir path s1.files w1).2.2 with
        | none => none
        | some (Step.ret w2) => some w2
        | some (Step.cont s2 w2) => browse_loop f path s2 w2) := by
  have hq : ¬ (key = 113 ∨ key = 81) := by omega
  have hlen : ¬ (fullpath_len path (files_at files st.selected).name ≥ (MAX_PATH : Int)) := by
    rw [fullpath_len_eq]; omega
  have hbody : browse_after_list (browse fuel) (read_file fuel) path files count st.selected wl =
      if (files_at files st.selected).is_dir = true then
        (browse fuel (path ++ "/" ++ (files_at files st.selected).name)
          { listing_screen path files count st.selected wl with stdin := ks }).map
            (fun w => Step.cont ⟨files, 0⟩ w)
      else
        (read_file fuel (path ++ "/" ++ (files_at files st.selected).name)
          { listing_screen path files count st.selected wl with stdin := ks }).map
            (fun w => Step.cont ⟨files, st.selected⟩ w) := by
    rw [browse_after_list_nonempty _ _ path files count st.selected wl key ks (by omega) hk,
      select_enter count key st.selected hkey, if_neg hq, if_pos hkey, if_neg hlen,
      fullpath_of_fits path _ hfit]
  refine ⟨files_at_listing files count st.selected
    (list_dir_count_le path st.files files count w wl hl) h0 h1, ?_, ?_, fun f s1 w1 => rfl⟩
  · intro hd
    rw [browse_loop_succ, hl]
    simp only []
    rw [hbody, if_pos hd]
    cases browse fuel (path ++ "/" ++ (files_at files st.selected).name)
      { listing_screen path files count st.selected wl with stdin := ks } <;> rfl
  · intro hd
    rw [browse_loop_succ, hl]
    simp only []
    rw [hbody, if_neg (by simp [hd])]
    cases read_file fuel (path ++ "/" ++ (files_at files st.selected).name)
      { listing_screen path files count st.selected wl with stdin := ks } <;> rfl

theorem long_path_length : long_path.length = 4095 := by
  show (List.replicate 4095 'p').length = 4095
  exact List.length_replicate 4095 'p'

/-- C9: on Enter or ArrowRight in a non-empty listing, when `path/name` is
shorter than `MAX_PATH = 4096` characters `browse` calls the nested `browse`
(directory) or `read_file` (file) with exactly that string; otherwise, whatever
those two calls would do, it prints the path-too-long error (clear screen,
`Path too long!`, the path, `Press any key to continue...`) after the listing,
makes exactly one call of `get_key`, and goes on with the selection unchanged
and nothing else changed in the world. -/
theorem browse_path_length_gate (R P : String → World → Option World) (path : String)
    (files : List FileEntry) (count sel : Int) (w : World) (key : Int) (ks : List Byte)
    (hc : count ≠ 0) (hk : get_key w.char_signed w.stdin = (key, ks))
    (hkey : key = 13 ∨ key = 10 ∨ key = 1002) :
    MAX_PATH = 4096 ∧
    ((path ++ "/" ++ (files_at files sel).name).length < MAX_PATH →
      browse_after_list R P path files count sel w =
        if (files_at files sel).is_dir = true then
          (R (path ++ "/" ++ (files_at files sel).name)
            { listing_screen path files count sel w with stdin := ks }).map
              (fun w1 => Step.cont ⟨files, 0⟩ w1)
        else
          (P (path ++ "/" ++ (files_at files sel).name)
            { listing_screen path files count sel w with stdin := ks }).map
              (fun w1 => Step.cont ⟨files, sel⟩ w1)) ∧
    (MAX_PATH ≤ (path ++ "/" ++ (files_at files sel).name).length →
      ∀ R1 P1 : String → World → Option World,
        browse_after_list R1 P1 path files count sel w =
          some (Step.cont ⟨files, sel⟩
            { listing_screen path files count sel w with
              stdin := (get_key w.char_signed ks).2,
              out := (listing_screen path files count sel w).out ++
                [Event.print "\x1b[2J\x1b[H", Event.print "Path too long!\r\n",
                 Event.print ("Path: " ++ path ++ "/" ++ (files_at files sel).name ++ "\r\n"),
                 Event.print "Press any key to continue...\r\n"] })) := by
  have hq : ¬ (key = 113 ∨ key = 81) := by omega
  refine ⟨rfl, ?_, ?_⟩
  · intro hfit
    have hlen : ¬ (fullpath_len path (files_at files sel).name ≥ (MAX_PATH : Int)) := by
      rw [fullpath_len_eq]; omega
    rw [browse_after_list_nonempty R P path files count sel w key ks hc hk,
      select_enter count key sel hkey, if_neg hq, if_pos hkey, if_neg hlen,
      fullpath_of_fits path _ hfit]
  · intro hlong R1 P1
    have hlen : fullpath_len path (files_at files sel).name ≥ (MAX_PATH : Int) := by
      rw [fullpath_len_eq]; omega
    rw [browse_after_list_nonempty R1 P1 path files count sel w key ks hc hk,
      select_enter count key sel hkey, if_neg hq, if_pos hkey, if_pos hlen,
      listing_screen_eq]
    simp [path_too_long_screen, World.printf, World.get_key, CLEAR]

theorem browse_path_length_gate_witness :
    browse_after_list (fun _ _ => none) (fun _ w => some w) "d" [entry_a] 1 0
        { World.blank with stdin := [13, 113] } =
      some (Step.cont ⟨[entry_a], 0⟩
        { listing_screen "d" [entry_a] 1 0 { World.blank with stdin := [13, 113] } with
          stdin := [113] }) ∧
    browse_after_list (fun _ _ => none) (fun _ _ => none) long_path [entry_a] 1 0
        { World.blank with stdin := [13, 120, 113] } =
      some (Step.cont ⟨[entry_a], 0⟩
        { listing_screen long_path [entry_a] 1 0
            { World.blank with stdin := [13, 120, 113] } with
          stdin := [113],
          out := (listing_screen long_path [entry_a] 1 0
              { World.blank with stdin := [13, 120, 113] }).out ++
            [Event.print "\x1b[2J\x1b[H", Event.print "Path too long!\r\n",
             Event.print ("Path: " ++ long_path ++ "/" ++ "a" ++ "\r\n"),
             Event.print "Press any key to continue...\r\n"] }) :=
  ⟨((browse_path_length_gate (fun _ _ => none) (fun _ w => some w) "d" [entry_a] 1 0
      { World.blank with stdin := [13, 113] } 13 [113] (by decide) (by decide)
      (by decide)).2.1 (by decide)).trans (by decide),
   (browse_path_length_gate (fun _ _ => none) (fun _ _ => none) long_path [entry_a] 1 0
      { World.blank with stdin := [13, 120, 113] } 13 [120, 113] (by decide) (by decide)
      (by decide)).2.2 (by
        have h : (long_path ++ "/" ++ (files_at [entry_a] 0).name).length = 4097 := by
          rw [String.length_append, String.length_append, long_path_length]
          rfl
        rw [h]; decide) _ _⟩

/-! ### The read of `files[selected]` stays inside the initialised part of the array -/
theorem store_length_ge (a : List FileEntry) (i : Nat) (x : FileEntry) (h : i ≤ a.length) :
    a.length ≤ (store a i x).length := by
  simp [store]
  omega

theorem list_dir_loop_length_ge (ents : List Dirent) :
    ∀ (files : List FileEntry) (c : Nat), c ≤ files.length →
      files.length ≤ (list_dir_loop ents files c).1.length := by
  induction ents with
  | nil => intro files c _; simp [list_dir_loop]
  | cons e rest ih =>
    intro files c h
    unfold list_dir_loop
    split_ifs
    · exact ih files c h
    · exact le_trans (store_length_ge files c _ h) (ih _ _ (store_length files c _ h))
    · exact le_refl _

theorem list_dir_length_ge (path : String) (files0 : List FileEntry) (w : World) :
    files0.length ≤ (list_dir path files0 w).1.length := by
  unfold list_dir
  simp only []
  split
  · exact le_refl _
  · exact le_refl _
  · exact list_dir_loop_length_ge _ files0 0 (Nat.zero_le _)

theorem list_dir_count_nonneg (path : String) (files0 : List FileEntry) (w : World) :
    0 ≤ (list_dir path files0 w).2.1 := by
  unfold list_dir
  simp only []
  split
  · exact le_refl _
  · exact le_refl _
  · exact Int.ofNat_nonneg _

theorem browse_select_ok (files : List FileEntry) (count key sel : Int)
    (hlen : count.toNat ≤ files.length) (hc : count ≠ 0) (hc0 : 0 ≤ count) (h0 : 0 ≤ sel)
    (h1 : sel = 0 ∨ sel < (files.length : Int)) :
    0 ≤ browse_select count key sel ∧ browse_select count key sel < (files.length : Int) := by
  unfold browse_select
  simp only []
  split_ifs <;> omega

theorem browse_body_selected_ok (R P : String → World → Option World) (path : String)
    (st st1 : BState) (w w1 : World) (hst : selected_ok st)
    (h : browse_body R P path st w = some (Step.cont st1 w1)) : selected_ok st1 := by
  unfold browse_body at h
  have hge := list_dir_length_ge path st.files w
  have hc0 := list_dir_count_nonneg path st.files w
  rcases hr : list_dir path st.files w with ⟨files, count, wl⟩
  have hle := list_dir_count_le path st.files files count w wl hr
  rw [hr] at h hge hc0
  simp only [] at h hge hc0
  obtain ⟨h0, h1⟩ := hst
  have h1' : st.selected = 0 ∨ st.selected < (files.length : Int) := by omega
  rcases hk : get_key wl.char_signed wl.stdin with ⟨key, ks⟩
  by_cases hc : count = 0
  · subst hc
    rw [browse_after_list_empty R P path files st.selected wl key ks hk] at h
    split_ifs at h
    · simp at h
    · have h2 := Option.some.inj h
      injection h2 with h3 h4
      rw [← h3]
      exact ⟨h0, h1'⟩
  · have hs := browse_select_ok files count key st.selected hle hc hc0 h0 h1'
    rw [browse_after_list_nonempty R P path files count st.selected wl key ks hc hk] at h
    split_ifs at h
    · simp at h
    · have h2 := Option.some.inj h
      injection h2 with h3 h4
      rw [← h3]; exact ⟨hs.1, Or.inr hs.2⟩
    · cases hR : R (fullpath_of path (files_at files (browse_select count key
          st.selected)).name)
          { listing_screen path files count st.selected wl with stdin := ks } with
      | none => rw [hR] at h; simp at h
      | some w2 =>
        rw [hR] at h
        have h2 := Option.some.inj h
        injection h2 with h3 h4
        rw [← h3]; exact ⟨le_refl _, Or.inl rfl⟩
    · cases hP : P (fullpath_of path (files_at files (browse_select count key
          st.selected)).name)
          { listing_screen path files count st.selected wl with stdin := ks } with
      | none => rw [hP] at h; simp at h
      | some w2 =>
        rw [hP] at h
        have h2 := Option.some.inj h
        injection h2 with h3 h4
        rw [← h3]; exact ⟨hs.1, Or.inr hs.2⟩
    · have h2 := Option.some.inj h
      injection h2 with h3 h4
      rw [← h3]; exact ⟨hs.1, Or.inr hs.2⟩

/-- C6, at the failing input: the directory holds `a`, `b`, `c` while the
selection is moved down twice, and only `a` at the third enumeration; then
`count = 1` and `selected = 2`, and Enter reads the stale `files[2]` and opens
`./c`. -/
theorem browse_selection_stale_after_shrink :
    ∃ w1 w2 w3 w4,
      browse_body (browse 3) (read_file 3) "." ⟨[], 0⟩ shrinking_world =
        some (Step.cont ⟨[entry_a, entry_b, entry_c], 1⟩ w1) ∧
      browse_body (browse 3) (read_file 3) "." ⟨[entry_a, entry_b, entry_c], 1⟩ w1 =
        some (Step.cont ⟨[entry_a, entry_b, entry_c], 2⟩ w2) ∧
      list_dir "." [entry_a, entry_b, entry_c] w2 = ([entry_a, entry_b, entry_c], 1, w3) ∧
      ¬ ((2 : Int) < 1) ∧
      files_at [entry_a, entry_b, entry_c] 2 = entry_c ∧
      browse 5 "." shrinking_world = some w4 ∧
      Event.fopen "./c" ∈ w4.out :=
  ⟨_, _, _, _, rfl, rfl, rfl, by decide, rfl, rfl, by decide⟩

/-- C7, at the failing input: the path cannot be opened and the keys are `x`,
`q`. `list_dir` prints `Cannot open directory` and the next thing `browse`
prints is the clear-screen sequence, followed by the empty-directory screen;
after the key `x` the iteration ends in `continue`, not in `return`, and the
whole call returns only after the second key, `q`, having enumerated the path
twice. -/
theorem browse_opendir_failure_not_dismissed :
    (∃ w1, browse_body (browse 1) (read_file 1) "/x" ⟨[], 0⟩ unreadable_world =
        some (Step.cont ⟨[], 0⟩ w1) ∧ w1.stdin = [113]) ∧
    (∀ w1, browse_body (browse 1) (read_file 1) "/x" ⟨[], 0⟩ unreadable_world ≠
        some (Step.ret w1)) ∧
    browse 3 "/x" unreadable_world =
      some { World.blank with out :=
        [Event.opendir "/x", Event.print "Cannot open directory: /x\r\n",
         Event.print CLEAR, Event.print "Directory: /x\r\n\n",
         Event.print "(Empty directory)\r\n\n", Event.print "Press 'q' to go back\r\n",
         Event.opendir "/x", Event.print "Cannot open directory: /x\r\n",
         Event.print CLEAR, Event.print "Directory: /x\r\n\n",
         Event.print "(Empty directory)\r\n\n", Event.print "Press 'q' to go back\r\n"] } := by
  refine ⟨⟨_, rfl, rfl⟩, ?_, by decide⟩
  intro w1 h
  have h2 : browse_body (browse 1) (read_file 1) "/x" ⟨[], 0⟩ unreadable_world =
      some (Step.cont ⟨[], 0⟩
        (empty_dir_screen "/x" (list_dir "/x" [] unreadable_world).2.2).get_key.2) := rfl
  rw [h2] at h
  cases h

/-- What the code does after a failed `opendir`, for every path and key:
`list_dir` prints its message and reports zero entries, and `browse` goes
through its empty-directory branch, which clears the screen, reads one key,
returns when that key is `q` or `Q`, and after any other key starts the next
iteration. -/
theorem browse_opendir_failure_as_empty (fuel : Nat) (path : String) (st : BState)
    (w : World) (ds : List (Option (List Dirent))) (key : Int) (ks : List Byte)
    (hd : w.dirs = none :: ds) (hk : get_key w.char_signed w.stdin = (key, ks)) :
    list_dir path st.files w = (st.files, 0,
      { w with dirs := ds, out := w.out ++ [Event.opendir path,
          Event.print ("Cannot open directory: " ++ path ++ "\r\n")] }) ∧
    browse_loop (fuel + 1) path st w =
      if key = 113 ∨ key = 81 then
        some { empty_dir_screen path (list_dir path st.files w).2.2 with stdin := ks }
      else
        browse_loop fuel path st
          { empty_dir_screen path (list_dir path st.files w).2.2 with stdin := ks } := by
  have hl : list_dir path st.files w = (st.files, 0,
      { w with dirs := ds, out := w.out ++ [Event.opendir path,
          Event.print ("Cannot open directory: " ++ path ++ "\r\n")] }) := by
    simp [list_dir, hd, World.printf]
  refine ⟨hl, ?_⟩
  rw [browse_loop_succ, hl]
  simp only []
  rw [browse_after_list_empty _ _ path st.files st.selected _ key ks (by simpa using hk)]
  split_ifs <;> rfl

theorem browse_opendir_failure_as_empty_witness :
    browse_loop 1 "/x" ⟨[], 0⟩ { World.blank with dirs := [none], stdin := [113] } =
      some { World.blank with out :=
        [Event.opendir "/x", Event.print "Cannot open directory: /x\r\n",
         Event.print CLEAR, Event.print "Directory: /x\r\n\n",
         Event.print "(Empty directory)\r\n\n", Event.print "Press 'q' to go back\r\n"] } :=
  (browse_opendir_failure_as_empty 0 "/x" ⟨[], 0⟩
    { World.blank with dirs := [none], stdin := [113] } [] 113 [] rfl (by decide)).2.trans
    (by decide)

theorem browse_enter_selection_witness :
    ∃ w1, browse_loop 3 "d" ⟨[⟨"b.txt", false⟩, ⟨"a_dir", true⟩], 1⟩ enter_dir_world =
        some w1 ∧
      w1.stdin = [] ∧ Event.opendir "d/a_dir" ∈ w1.out :=
  ⟨_, ((browse_enter_selection 2 "d" ⟨[⟨"b.txt", false⟩, ⟨"a_dir", true⟩], 1⟩
      enter_dir_world _ _ 2 13 [113, 113] rfl (by decide) (by decide) (by decide) rfl
      (by decide) (by decide)).2.1 rfl).trans rfl, rfl, by decide⟩

/-! ## The pager: jumps and page up -/

/-- C11: `g` sets the offset to 0 and `G` sets it to
`max 0 (total_lines - display_lines)`, whatever the offset before; so `g` then
`G` gives the same offset as `G` alone, in `pager_key` and in the paging loop
fed with the two keys. -/
theorem pager_jump_idempotent (path : String) (lines : List String) (total dl sp : Int)
    (fuel : Nat) (w : World) (rest : List Byte)
    (hk : get_keys w.char_signed 2 w.stdin = ([103, 71], rest)) :
    pager_key total dl 103 sp = 0 ∧
    pager_key total dl 71 sp = max 0 (total - dl) ∧
    pager_key total dl 71 (pager_key total dl 103 sp) = pager_key total dl 71 sp ∧
    pager_offsets total dl [103, 71] sp = [0, max 0 (total - dl)] ∧
    pager_offsets total dl [71] sp = [max 0 (total - dl)] ∧
    ∃ w1, w1.stdin = rest ∧
      pager_loop path lines total dl (2 + fuel) sp w =
        pager_loop path lines total dl fuel (max 0 (total - dl)) w1 := by
  have hG : ∀ s, pager_key total dl 71 s = max 0 (total - dl) := by
    intro s; rw [pager_key_G]; split_ifs <;> omega
  have ho : pager_offsets total dl [103, 71] sp = [0, max 0 (total - dl)] := by
    simp [pager_offsets, pager_key_g, hG]
  refine ⟨pager_key_g total dl sp, hG sp, by rw [hG, hG], ho, by simp [pager_offsets, hG], ?_⟩
  obtain ⟨w1, h1, _, h3⟩ := pager_loop_run path lines total dl [103, 71] fuel sp w rest hk
    (by intro k hk; simp at hk; omega)
  refine ⟨w1, h1, ?_⟩
  simpa [ho] using h3

theorem pager_jump_idempotent_witness :
    ∃ w1, w1.stdin = [113] ∧
      pager_loop "f" ["a", "b", "c"] 3 2 3 1 { World.blank with stdin := [103, 71, 113] } =
        pager_loop "f" ["a", "b", "c"] 3 2 1 (max 0 (3 - 2)) w1 :=
  (pager_jump_idempotent "f" ["a", "b", "c"] 3 2 1 1
    { World.blank with stdin := [103, 71, 113] } [113] (by decide)).2.2.2.2.2

/-- Page up with a viewport that is not negative: `b` sets the offset to
`max 0 (offset - display_lines)` and does not increase it. -/
theorem pager_page_up_of_nonneg (total dl sp : Int) (hdl : 0 ≤ dl) (h0 : 0 ≤ sp) :
    pager_key total dl 98 sp = max 0 (sp - dl) ∧ pager_key total dl 98 sp ≤ sp := by
  rw [pager_key_b]
  split_ifs <;> omega

/-- C19, at the failing input: on a terminal that reports zero rows
`display_lines = -4`; `b` at offset 1 gives offset 5, an increase, and the next
frame says so in its header; `b` at offset 0 leaves 0 where
`max 0 (0 - (-4))` is 4. -/
theorem pager_page_up_negative_viewport :
    (get_terminal_height zero_rows_world).1 - 4 = -4 ∧
    pager_key 1 (-4) 98 1 = 5 ∧
    pager_key 1 (-4) 98 0 = 0 ∧ max (0 : Int) (0 - (-4)) = 4 ∧
    pager_offsets 1 (-4) [1001, 98] 0 = [1, 5] ∧
    ∃ w, read_file 3 "f" { zero_rows_world with stdin := [27, 91, 66, 98, 113] } = some w ∧
      Event.print "File: f (lines 6-1 of 1)\r\n" ∈ w.out :=
  ⟨by decide, by decide, by decide, by decide, by decide, _, rfl, by decide⟩

/-! ## Empty file, empty directory -/

theorem fgets_all_ne_nil (size : Nat) (l : List Char) :
    ∀ cur : List Char, (l ≠ [] ∨ cur ≠ []) → fgets_all size l cur ≠ [] := by
  induction l with
  | nil => intro cur h; simp [fgets_all]; tauto
  | cons c rest ih =>
    intro cur _
    unfold fgets_all
    split_ifs
    · simp
    · exact ih _ (Or.inr (by simp))

theorem fgets_all_eq_nil_iff (size : Nat) (l : List Char) :
    fgets_all size l [] = [] ↔ l = [] := by
  constructor
  · intro h
    by_contra hl
    exact fgets_all_ne_nil size l [] (Or.inl hl) h
  · intro h; subst h; rfl

/-- C12: a file that opens and yields zero lines is the zero-byte file, and for
it `read_file`, with any fuel, prints the file-is-empty screen, makes one call
of `get_key` and returns: nothing else is printed, no frame, and the paging
loop is not entered. -/
theorem read_file_empty (fuel : Nat) (path content : String) (w : World)
    (rest : List (Option String))
    (ho : w.fopens = some content :: rest)
    (hz : (fgets_all MAX_LINE content.data []).length = 0) :
    content = "" ∧
    read_file fuel path w =
      some { w with
        fopens := rest,
        stdin := (get_key w.char_signed w.stdin).2,
        out := w.out ++ [Event.fopen path, Event.print CLEAR,
          Event.print ("File is empty: " ++ path ++ "\r\n"),
          Event.print "Press any key to go back...\r\n"] } ∧
    read_file fuel path { w with fopens := some "" :: rest } =
      some { w with
        fopens := rest,
        stdin := (get_key w.char_signed w.stdin).2,
        out := w.out ++ [Event.fopen path, Event.print CLEAR,
          Event.print ("File is empty: " ++ path ++ "\r\n"),
          Event.print "Press any key to go back...\r\n"] } := by
  have hnil : fgets_all MAX_LINE content.data [] = [] := List.length_eq_zero.1 hz
  have hc : content.data = [] := (fgets_all_eq_nil_iff MAX_LINE content.data).1 hnil
  have hcontent : content = "" := by
    cases content; simp only [] at hc; subst hc; rfl
  refine ⟨hcontent, ?_, ?_⟩
  · subst hcontent
    simp [read_file, World.fopen, ho, fgets_all, World.printf, World.get_key]
  · simp [read_file, World.fopen, fgets_all, World.printf, World.get_key]

theorem read_file_empty_witness :
    read_file 0 "e" { World.blank with fopens := [some ""], stdin := [120, 113] } =
      some { World.blank with
        stdin := [113],
        out := [Event.fopen "e", Event.print CLEAR, Event.print "File is empty: e\r\n",
          Event.print "Press any key to go back...\r\n"] } :=
  ((read_file_empty 0 "e" "" { World.blank with fopens := [some ""], stdin := [120, 113] }
    [] rfl (by decide)).2.1).trans (by decide)

/-- C20: in an iteration of `browse` whose enumeration stores no entry, `browse`
returns when the key read is `q` or `Q` and only then; after any other key it
starts the next iteration, whatever the nested `browse` and `read_file` would
do, and every iteration starts by calling `list_dir`. -/
theorem browse_empty_directory (fuel : Nat) (path : String) (st : BState) (w wl : World)
    (files : List FileEntry) (key : Int) (ks : List Byte)
    (hl : list_dir path st.files w = (files, 0, wl))
    (hk : get_key wl.char_signed wl.stdin = (key, ks)) :
    (browse_loop (fuel + 1) path st w =
      if key = 113 ∨ key = 81 then some { empty_dir_screen path wl with stdin := ks }
      else browse_loop fuel path ⟨files, st.selected⟩
        { empty_dir_screen path wl with stdin := ks }) ∧
    (∀ R P : String → World → Option World,
      browse_body R P path st w =
        if key = 113 ∨ key = 81 then
          some (Step.ret { empty_dir_screen path wl with stdin := ks })
        else some (Step.cont ⟨files, st.selected⟩
          { empty_dir_screen path wl with stdin := ks })) ∧
    (∀ (f : Nat) (s1 : BState) (w1 : World),
      browse_loop (f + 1) path s1 w1 =
        match browse_after_list (browse f) (read_file f) path
            (list_dir path s1.files w1).1 (list_dir path s1.files w1).2.1 s1.selected
            (list_dir path s1.files w1).2.2 with
        | none => none
        | some (Step.ret w2) => some w2
        | some (Step.cont s2 w2) => browse_loop f path s2 w2) := by
  have hb : ∀ R P : String → World → Option World,
      browse_body R P path st w =
        if key = 113 ∨ key = 81 then
          some (Step.ret { empty_dir_screen path wl with stdin := ks })
        else some (Step.cont ⟨files, st.selected⟩
          { empty_dir_screen path wl with stdin := ks }) := by
    intro R P
    unfold browse_body
    rw [hl]
    exact browse_after_list_empty R P path files st.selected wl key ks hk
  refine ⟨?_, hb, fun f s1 w1 => rfl⟩
  rw [browse_loop_succ, hl]
  simp only []
  rw [browse_after_list_empty _ _ path files st.selected wl key ks hk]
  split_ifs <;> rfl

theorem browse_empty_directory_witness :
    ∃ w1, browse_loop 2 "e" ⟨[], 0⟩
        { World.blank with dirs := [some [⟨".", true⟩, ⟨"..", true⟩], some []],
                           stdin := [120, 113] } = some w1 ∧
      w1.stdin = [] ∧ w1.out.count (Event.opendir "e") = 2 :=
  ⟨_, ((browse_empty_directory 1 "e" ⟨[], 0⟩
      { World.blank with dirs := [some [⟨".", true⟩, ⟨"..", true⟩], some []],
                         stdin := [120, 113] } _ _ 120 [113] rfl rfl).1).trans rfl,
    rfl, by decide⟩

/-! ## The content of a listing -/

theorem store_eq (files : List FileEntry) (c : Nat) (x : FileEntry) (s : List FileEntry)
    (h : c ≤ files.length) :
    (store files c x).take (c + 1) ++ s ++ (store files c x).drop (c + 1 + s.length) =
      files.take c ++ x :: s ++ files.drop (c + (s.length + 1)) := by
  have hl : (files.take c).length = c := List.length_take_of_le h
  have e1 : (store files c x).take (c + 1) = files.take c ++ [x] := by
    unfold store
    rw [List.take_append_eq_append_take, hl]
    have h0 : c + 1 - c = 1 := by omega
    rw [h0, List.take_of_length_le (by rw [hl]; omega)]
    rfl
  have e2 : (store files c x).drop (c + 1 + s.length) = files.drop (c + (s.length + 1)) := by
    unfold store
    rw [List.drop_append_eq_append_drop, hl]
    have h1 : List.drop (c + 1 + s.length) (List.take c files) = [] := by
      apply List.drop_eq_nil_of_le; rw [hl]; omega
    have h2 : c + 1 + s.length - c = s.length + 1 := by omega
    rw [h1, h2, List.nil_append, List.drop_succ_cons, List.drop_drop]
    congr 1; omega
  rw [e1, e2]
  simp

theorem list_dir_loop_eq (ents : List Dirent) :
    ∀ (files : List FileEntry) (c : Nat), c ≤ files.length →
      list_dir_loop ents files c =
        (files.take c ++
          (((ents.filter (fun e => decide (e.d_name ≠ "." ∧ e.d_name ≠ ".."))).take
            (MAX_FILES - c)).map
            (fun e => (⟨String.mk (e.d_name.data.take (MAX_PATH - 1)), e.d_is_dir⟩ : FileEntry)))
          ++ files.drop (c +
            (((ents.filter (fun e => decide (e.d_name ≠ "." ∧ e.d_name ≠ ".."))).take
              (MAX_FILES - c)).map
              (fun e => (⟨String.mk (e.d_name.data.take (MAX_PATH - 1)), e.d_is_dir⟩
                : FileEntry))).length),
         c +
            (((ents.filter (fun e => decide (e.d_name ≠ "." ∧ e.d_name ≠ ".."))).take
              (MAX_FILES - c)).map
              (fun e => (⟨String.mk (e.d_name.data.take (MAX_PATH - 1)), e.d_is_dir⟩
                : FileEntry))).length) := by
  induction ents with
  | nil => intro files c _; simp [list_dir_loop]
  | cons e rest ih =>
    intro files c h
    unfold list_dir_loop
    by_cases hc : c < MAX_FILES
    · rw [if_pos hc]
      by_cases hd : e.d_name = "." ∨ e.d_name = ".."
      · rw [if_pos hd, ih files c h]
        have : decide (e.d_name ≠ "." ∧ e.d_name ≠ "..") = false := by
          simp only [decide_eq_false_iff_not]; tauto
        simp only [List.filter_cons, this, Bool.false_eq_true, if_false]
      · rw [if_neg hd, ih _ (c + 1) (store_length files c _ h)]
        have hp : decide (e.d_name ≠ "." ∧ e.d_name ≠ "..") = true := by
          simp only [decide_eq_true_eq]; tauto
        simp only [List.filter_cons, hp, if_true]
        have hm : MAX_FILES - c = (MAX_FILES - (c + 1)) + 1 := by omega
        rw [hm, List.take_succ_cons, List.map_cons]
        simp only [List.length_cons, List.length_map]
        rw [Prod.mk.injEq]
        refine ⟨?_, by omega⟩
        have := store_eq files c
          (⟨String.mk (e.d_name.data.take (MAX_PATH - 1)), e.d_is_dir⟩ : FileEntry)
          (((rest.filter (fun e => decide (e.d_name ≠ "." ∧ e.d_name ≠ ".."))).take
            (MAX_FILES - (c + 1))).map
            (fun e => (⟨String.mk (e.d_name.data.take (MAX_PATH - 1)), e.d_is_dir⟩
              : FileEntry))) h
        simpa [List.length_map] using this
    · rw [if_neg hc]
      have hm : MAX_FILES - c = 0 := by omega
      simp [hm]

theorem stored_name_eq (name : String) (h : name.length < MAX_PATH) :
    String.mk (name.data.take (MAX_PATH - 1)) = name := by
  have h2 : name.data.length ≤ MAX_PATH - 1 := by
    have : name.data.length = name.length := rfl
    omega
  rw [List.take_of_length_le h2]

/-- C13: when the enumeration succeeds and, as for every `struct dirent`, the
names are shorter than `MAX_PATH`, `list_dir` leaves in the first `count` slots
of `files` exactly the listing of the specification: the entries other than `.`
and `..`, in enumeration order, each with its name and directory flag, the
first `MAX_FILES = 10000` of them; `count` is their number and is at most
`MAX_FILES`. -/
theorem list_dir_content (path : String) (files : List FileEntry) (w : World)
    (ents : List Dirent) (ds : List (Option (List Dirent)))
    (hd : w.dirs = some ents :: ds)
    (hn : ∀ e ∈ ents, e.d_name.length < MAX_PATH) :
    list_dir path files w =
      (spec_listing ents ++ files.drop (spec_listing ents).length,
        ((spec_listing ents).length : Int),
        { w with dirs := ds, out := w.out ++ [Event.opendir path] }) ∧
    (list_dir path files w).1.take (list_dir path files w).2.1.toNat = spec_listing ents ∧
    (spec_listing ents).length ≤ MAX_FILES ∧ MAX_FILES = 10000 := by
  have hmap : ((ents.filter (fun e => decide (e.d_name ≠ "." ∧ e.d_name ≠ ".."))).take
      (MAX_FILES - 0)).map
      (fun e => (⟨String.mk (e.d_name.data.take (MAX_PATH - 1)), e.d_is_dir⟩ : FileEntry)) =
      spec_listing ents := by
    unfold spec_listing
    apply List.map_congr_left
    intro e he
    have he2 : e ∈ ents := List.mem_of_mem_filter (List.mem_of_mem_take he)
    rw [stored_name_eq e.d_name (hn e he2)]
  have hloop := list_dir_loop_eq ents files 0 (Nat.zero_le _)
  rw [hmap] at hloop
  have hl : list_dir path files w =
      (spec_listing ents ++ files.drop (spec_listing ents).length,
        ((spec_listing ents).length : Int),
        { w with dirs := ds, out := w.out ++ [Event.opendir path] }) := by
    unfold list_dir
    simp only [hd, hloop]
    simp
  refine ⟨hl, ?_, ?_, rfl⟩
  · rw [hl]
    simp
  · unfold spec_listing
    simp only [List.length_map, List.length_take]
    omega

theorem list_dir_content_witness :
    list_dir "d" [entry_a, entry_b, entry_c]
        { World.blank with dirs := [some [⟨".", true⟩, ⟨"b.txt", false⟩, ⟨"..", true⟩,
          ⟨"a_dir", true⟩]] } =
      ([⟨"b.txt", false⟩, ⟨"a_dir", true⟩, entry_c], 2,
        { World.blank with out := [Event.opendir "d"] }) :=
  ((list_dir_content "d" [entry_a, entry_b, entry_c]
    { World.blank with dirs := [some [⟨".", true⟩, ⟨"b.txt", false⟩, ⟨"..", true⟩,
      ⟨"a_dir", true⟩]] } _ [] rfl (by decide)).1).trans (by decide)

/-! ## The frames of the pager -/

theorem printf_out (w : World) (s : String) :
    (w.printf s).out = w.out ++ [Event.print s] := rfl

theorem foldl_printf_out (f : Nat → String) (l : List Nat) (w : World) :
    (l.foldl (fun w i => w.printf (f i)) w).out =
      w.out ++ l.map (fun i => Event.print (f i)) := by
  induction l generalizing w with
  | nil => simp
  | cons i l ih =>
    simp only [List.foldl_cons, List.map_cons]
    rw [ih, printf_out]
    simp

theorem takeWhile_range' (lc sp : Int) (n : Nat) :
    ∀ s : Nat, (List.range' s n).takeWhile (fun (i : Nat) => decide (sp + (i : Int) < lc)) =
      List.range' s (min n ((lc - sp).toNat - s)) := by
  induction n with
  | zero => intro s; simp
  | succ n ih =>
    intro s
    rw [List.range'_succ, List.takeWhile_cons]
    by_cases h : sp + (s : Int) < lc
    · simp only [h, decide_True, if_true]
      rw [ih (s + 1)]
      have : min (n + 1) ((lc - sp).toNat - s) = min n ((lc - sp).toNat - (s + 1)) + 1 := by
        omega
      rw [this, List.range'_succ]
    · simp only [h, decide_False, Bool.false_eq_true, if_false]
      have : min (n + 1) ((lc - sp).toNat - s) = 0 := by omega
      rw [this]
      rfl

theorem frame_indices_eq (lc sp dl : Int) :
    frame_indices lc sp dl = List.range (min dl.toNat (lc - sp).toNat) := by
  unfold frame_indices
  rw [List.range_eq_range', takeWhile_range' lc sp dl.toNat 0, List.range_eq_range']
  simp

theorem pager_frame_out (path : String) (lines : List String) (sp dl : Int) (w : World) :
    (pager_frame path lines sp dl w).out =
      w.out ++ [Event.print CLEAR,
        Event.print ("File: " ++ path ++ " (lines " ++ fmt_d (sp + 1) ++ "-"
          ++ fmt_d (header_last lines.length sp dl) ++ " of "
          ++ fmt_d lines.length ++ ")\r\n"),
        Event.print RULE]
      ++ (frame_indices lines.length sp dl).map
          (fun (i : Nat) => Event.print (lines.getD (sp + (i : Int)).toNat "" ++ "\r\n"))
      ++ [Event.print RULE,
        Event.print "↑↓ scroll | Space/b page | g/G top/bottom | q quit\r\n"] := by
  unfold pager_frame
  simp only [printf_out]
  rw [foldl_printf_out (fun (i : Nat) => lines.getD (sp + (i : Int)).toNat "" ++ "\r\n")]
  simp [printf_out]

theorem map_range_getD (lines : List String) (a n : Nat) (h : a + n ≤ lines.length) :
    (List.range n).map (fun i => lines.getD (a + i) "") = (lines.drop a).take n := by
  induction n generalizing a with
  | zero => simp
  | succ n ih =>
    have ha : a < lines.length := by omega
    rw [List.range_succ_eq_map, List.map_cons, List.map_map]
    have h1 : (lines.drop a) = lines[a] :: lines.drop (a + 1) := by
      rw [List.drop_eq_getElem_cons ha]
    rw [h1, List.take_succ_cons, ← ih (a + 1) (by omega)]
    congr 1
    · simp [List.getD, List.getElem?_eq_getElem ha]
    · apply List.map_congr_left
      intro i _
      simp only [Function.comp]
      congr 1
      omega

/-- C18: for a buffer of at least one line, a viewport of at least one line and
an offset within the scroll bounds, a frame prints, between the header and the
two rules, exactly the lines of the buffer from index `offset` on,
`min (offset + display_lines) line_count - offset` of them, in order; the
header reports the range `offset + 1` to `min (offset + display_lines)
line_count` of `line_count`, which is not empty and has as many numbers as
lines are printed. -/
theorem pager_frame_content (path : String) (lines : List String) (sp dl : Int) (w : World)
    (h1 : 1 ≤ (lines.length : Int)) (hdl : 1 ≤ dl) (h0 : 0 ≤ sp)
    (hs : sp ≤ max 0 ((lines.length : Int) - dl)) :
    header_last lines.length sp dl = min (sp + dl) lines.length ∧
    sp + 1 ≤ min (sp + dl) lines.length ∧
    frame_indices lines.length sp dl =
      List.range (min (sp + dl) lines.length - sp).toNat ∧
    ((lines.drop sp.toNat).take (min (sp + dl) lines.length - sp).toNat).length =
      (min (sp + dl) lines.length - sp).toNat ∧
    (pager_frame path lines sp dl w).out =
      w.out ++ [Event.print CLEAR,
        Event.print ("File: " ++ path ++ " (lines " ++ fmt_d (sp + 1) ++ "-"
          ++ fmt_d (min (sp + dl) lines.length) ++ " of "
          ++ fmt_d lines.length ++ ")\r\n"),
        Event.print RULE]
      ++ ((lines.drop sp.toNat).take (min (sp + dl) lines.length - sp).toNat).map
          (fun l => Event.print (l ++ "\r\n"))
      ++ [Event.print RULE,
        Event.print "↑↓ scroll | Space/b page | g/G top/bottom | q quit\r\n"] := by
  have hh : header_last lines.length sp dl = min (sp + dl) lines.length := by
    unfold header_last; split_ifs <;> omega
  have hn : min dl.toNat ((lines.length : Int) - sp).toNat =
      (min (sp + dl) lines.length - sp).toNat := by omega
  have hi : frame_indices lines.length sp dl =
      List.range (min (sp + dl) lines.length - sp).toNat := by
    rw [frame_indices_eq, hn]
  have hfit : sp.toNat + (min (sp + dl) lines.length - sp).toNat ≤ lines.length := by omega
  refine ⟨hh, by omega, hi, ?_, ?_⟩
  · rw [List.length_take, List.length_drop]; omega
  · rw [pager_frame_out, hh, hi, ← map_range_getD lines sp.toNat _ hfit, List.map_map]
    congr 2
    apply List.map_congr_left
    intro i _
    simp only [Function.comp]
    have : (sp + (i : Int)).toNat = sp.toNat + i := by omega
    rw [this]

theorem pager_frame_content_witness :
    (pager_frame "f" ["line1", "line2", "line3"] 1 2 World.blank).out =
      [Event.print CLEAR, Event.print "File: f (lines 2-3 of 3)\r\n", Event.print RULE,
       Event.print "line2\r\n", Event.print "line3\r\n", Event.print RULE,
       Event.print "↑↓ scroll | Space/b page | g/G top/bottom | q quit\r\n"] :=
  ((pager_frame_content "f" ["line1", "line2", "line3"] 1 2 World.blank (by decide)
    (by decide) (by decide) (by decide)).2.2.2.2).trans (by decide)

/-! ## The pager scenario -/

/-- C16, as stated, fails: after one Space the offset is 1 and the frame, with
a viewport of 2, prints `line2` and `line3`, not `line3` only; over the whole
session `line2` is printed twice. -/
theorem pager_scenario_second_frame_not_line3_only :
    pager_key 3 2 32 0 = 1 ∧
    frame_indices 3 1 2 = [0, 1] ∧
    (pager_frame "d/f.txt" ["line1", "line2", "line3"] 1 2 World.blank).out =
      [Event.print CLEAR, Event.print "File: d/f.txt (lines 2-3 of 3)\r\n", Event.print RULE,
       Event.print "line2\r\n", Event.print "line3\r\n", Event.print RULE,
       Event.print "↑↓ scroll | Space/b page | g/G top/bottom | q quit\r\n"] ∧
    ∃ w, read_file 2 "d/f.txt" three_lines_world = some w ∧
      (w.out.filter (fun e => decide (e = Event.print "line2\r\n"))).length = 2 := by
  refine ⟨by decide, by decide, by decide, _, rfl, by decide⟩

/-- C16, amended: for the file `line1\nline2\nline3\n` on a terminal of 6 rows
(viewport 2), the first frame shows lines 1-2 of 3; after one Space the offset
is 1 and the frame shows lines 2-3 of 3, `line2` and `line3`; then `q` returns
to `browse`, which goes on with the selection it had before Enter (1, the cursor
on `f.txt`). -/
theorem pager_scenario :
    read_file 2 "d/f.txt" three_lines_world =
      some { World.blank with out :=
        [Event.fopen "d/f.txt",
         Event.print CLEAR, Event.print "File: d/f.txt (lines 1-2 of 3)\r\n", Event.print RULE,
         Event.print "line1\r\n", Event.print "line2\r\n", Event.print RULE,
         Event.print "↑↓ scroll | Space/b page | g/G top/bottom | q quit\r\n",
         Event.print CLEAR, Event.print "File: d/f.txt (lines 2-3 of 3)\r\n", Event.print RULE,
         Event.print "line2\r\n", Event.print "line3\r\n", Event.print RULE,
         Event.print "↑↓ scroll | Space/b page | g/G top/bottom | q quit\r\n"] } ∧
    pager_offsets 3 (6 - 4) [32] 0 = [1] ∧
    ∃ w1 w2 w3,
      browse_body (browse 3) (read_file 3) "d" ⟨[], 0⟩ pager_scenario_world =
        some (Step.cont ⟨[⟨"b.txt", false⟩, ⟨"f.txt", false⟩], 1⟩ w1) ∧
      browse_body (browse 3) (read_file 3) "d" ⟨[⟨"b.txt", false⟩, ⟨"f.txt", false⟩], 1⟩ w1 =
        some (Step.cont ⟨[⟨"b.txt", false⟩, ⟨"f.txt", false⟩], 1⟩ w2) ∧
      Event.fopen "d/f.txt" ∈ w2.out ∧ w2.stdin = [113] ∧
      browse 4 "d" pager_scenario_world = some w3 ∧ w3.stdin = [] ∧
      w3.out.drop (w3.out.length - 7) =
        [Event.print CLEAR, Event.print "Directory: d (2 items)\r\n\n",
         Event.print "  ", Event.print "b.txt\r\n", Event.print "> ", Event.print "f.txt\r\n",
         Event.print "\r\n↑↓ navigate | Enter select | q back\r\n"] := by
  refine ⟨by decide, by decide, _, _, _, rfl, rfl, by decide, rfl, rfl, rfl, by decide⟩

/-! ## The lines of a file -/

theorem c_str_eq_self (l : List Char) (h : ∀ c ∈ l, c ≠ Char.ofNat 0) : c_str l = l := by
  unfold c_str
  induction l with
  | nil => rfl
  | cons c rest ih =>
    have hc : c ≠ Char.ofNat 0 := h c (List.mem_cons_self _ _)
    rw [List.takeWhile_cons]
    simp only [hc, ne_eq, not_false_eq_true, decide_True, if_true]
    rw [ih (fun x hx => h x (List.mem_cons_of_mem _ hx))]

theorem stored_line_newline (cur : List Char) (h : ∀ c ∈ cur, c ≠ Char.ofNat 0) :
    stored_line (cur ++ ['\n']) = String.mk cur := by
  unfold stored_line
  have h2 : ∀ c ∈ cur ++ ['\n'], c ≠ Char.ofNat 0 := by
    intro c hc
    rcases List.mem_append.1 hc with h1 | h1
    · exact h c h1
    · simp at h1; subst h1; decide
  simp only [c_str_eq_self _ h2]
  simp

theorem stored_line_plain (cur : List Char) (h : ∀ c ∈ cur, c ≠ Char.ofNat 0)
    (hn : '\n' ∉ cur) : stored_line cur = String.mk cur := by
  unfold stored_line
  simp only [c_str_eq_self _ h]
  have : cur.getLast? ≠ some '\n' := by
    intro hl
    exact hn (List.mem_of_getLast?_eq_some hl)
  simp [this]

theorem with_line_start_nil (ls : List (List Char)) : with_line_start [] ls = ls := by
  cases ls <;> simp [with_line_start]

theorem with_line_start_snoc (cur : List Char) (c : Char) (rest : List Char)
    (hc : c ≠ '\n') :
    with_line_start (cur ++ [c]) (spec_lines rest) =
      with_line_start cur (spec_lines (c :: rest)) := by
  rw [spec_lines, if_neg hc]
  cases spec_lines rest with
  | nil => simp [with_line_start]
  | cons l ls => simp [with_line_start]

theorem with_line_start_length (cur : List Char) (ls : List (List Char)) (n : Nat)
    (hcur : cur ≠ [])
    (h : ∀ x ∈ with_line_start cur ls, x.length ≤ n) : cur.length ≤ n := by
  cases ls with
  | nil =>
    have := h cur (by simp [with_line_start, hcur])
    exact this
  | cons l ls =>
    have := h (cur ++ l) (by simp [with_line_start])
    simp at this
    omega

/-- With no NUL character and no line of more than `MAX_LINE - 2` characters, the
buffers `fgets` fills, stored as `read_file` stores them, are the lines of
`spec_lines`. -/
theorem fgets_all_stored (l : List Char) :
    ∀ cur : List Char,
      (∀ c ∈ cur, c ≠ Char.ofNat 0) → (∀ c ∈ l, c ≠ Char.ofNat 0) → '\n' ∉ cur →
      (∀ x ∈ with_line_start cur (spec_lines l), x.length ≤ MAX_LINE - 2) →
      (fgets_all MAX_LINE l cur).map stored_line =
        (with_line_start cur (spec_lines l)).map String.mk := by
  induction l with
  | nil =>
    intro cur h0 _ hn _
    simp only [fgets_all, spec_lines, with_line_start]
    split_ifs
    · rfl
    · simp [stored_line_plain cur h0 hn]
  | cons c rest ih =>
    intro cur h0 h1 hn hlen
    have hrest : ∀ x ∈ rest, x ≠ Char.ofNat 0 := fun x hx => h1 x (List.mem_cons_of_mem _ hx)
    unfold fgets_all
    by_cases hc : c = '\n'
    · subst hc
      have hs : spec_lines ('\n' :: rest) = [] :: spec_lines rest := by
        rw [spec_lines, if_pos rfl]
      rw [if_pos (Or.inl rfl), List.map_cons, stored_line_newline cur h0, hs]
      simp only [with_line_start, List.append_nil, List.map_cons]
      rw [hs] at hlen
      have hl2 : ∀ x ∈ with_line_start [] (spec_lines rest), x.length ≤ MAX_LINE - 2 := by
        intro x hx
        rw [with_line_start_nil] at hx
        exact hlen x (by simp [with_line_start, hx])
      have := ih [] (by simp) hrest (by simp) hl2
      rw [with_line_start_nil] at this
      rw [this]
    · have hsn := with_line_start_snoc cur c rest hc
      have hlen2 : ∀ x ∈ with_line_start (cur ++ [c]) (spec_lines rest),
          x.length ≤ MAX_LINE - 2 := by rw [hsn]; exact hlen
      have hb := with_line_start_length (cur ++ [c]) (spec_lines rest) (MAX_LINE - 2)
        (by simp) hlen2
      have hne : ¬ (c = '\n' ∨ cur.length + 1 = MAX_LINE - 1) := by
        simp only [List.length_append, List.length_singleton] at hb
        have : MAX_LINE = 512 := rfl
        rintro (h | h)
        · exact hc h
        · omega
      rw [if_neg hne, ← hsn]
      apply ih (cur ++ [c])
      · intro x hx
        rcases List.mem_append.1 hx with h | h
        · exact h0 x h
        · simp at h; subst h; exact h1 x (List.mem_cons_self _ _)
      · exact hrest
      · intro hx
        rcases List.mem_append.1 hx with h | h
        · exact hn h
        · simp at h; exact hc h.symm
      · exact hlen2

theorem malloc_ok (w : World) (h : ∀ b ∈ w.heap, b = true) :
    w.malloc = (true, { w with heap := w.heap.drop 1 }) := by
  obtain ⟨cs, si, d, f, ws, hp, o⟩ := w
  unfold World.malloc
  cases hp with
  | nil => rfl
  | cons b t =>
    have : b = true := h b (List.mem_cons_self _ _)
    subst this
    rfl

theorem load_lines_ok (total : Int) (bufs : List (List Char)) :
    ∀ (acc : List String) (w : World), (∀ b ∈ w.heap, b = true) →
      ((acc.length + bufs.length : Nat) : Int) ≤ total →
      load_lines total bufs acc w =
        (some (acc ++ bufs.map stored_line), { w with heap := w.heap.drop bufs.length }) := by
  induction bufs with
  | nil => intro acc w _ _; simp [load_lines]
  | cons buf rest ih =>
    intro acc w hm hlen
    have hlt : (acc.length : Int) < total := by
      simp only [List.length_cons] at hlen; push_cast at hlen; omega
    unfold load_lines
    rw [if_pos hlt]
    simp only [malloc_ok w hm, if_true]
    rw [ih (acc ++ [stored_line buf]) _ (by
        intro b hb
        exact hm b (List.mem_of_mem_drop hb)) (by
        simp only [List.length_append, List.length_singleton, List.length_cons,
          List.length_nil] at hlen ⊢
        push_cast at hlen ⊢
        omega)]
    simp [List.drop_drop, Nat.add_comm]

theorem get_terminal_height_congr (w w1 : World) (h : w1.winsz = w.winsz) :
    (get_terminal_height w1).1 = (get_terminal_height w).1 := by
  unfold get_terminal_height
  rw [h]
  rcases w.winsz with _ | ⟨_ | r, t⟩ <;> rfl

theorem read_file_after_fopen (fuel : Nat) (path content : String) (w wf : World)
    (hf : w.fopen path = (some content, wf)) (hm : ∀ b ∈ wf.heap, b = true)
    (hne : content ≠ "") :
    ∃ w1, w1.stdin = wf.stdin ∧ w1.char_signed = wf.char_signed ∧ w1.out = wf.out ∧
      read_file fuel path w =
        pager_loop path ((fgets_all MAX_LINE content.data []).map stored_line)
          (((fgets_all MAX_LINE content.data []).map stored_line).length : Nat)
          ((get_terminal_height wf).1 - 4) fuel 0 w1 := by
  have hdata : content.data ≠ [] := by
    intro h; apply hne; cases content; simp only [] at h; subst h; rfl
  have hbufs : fgets_all MAX_LINE content.data [] ≠ [] :=
    fgets_all_ne_nil MAX_LINE content.data [] (Or.inl hdata)
  have htot : ¬ (((fgets_all MAX_LINE content.data []).length : Int) = 0) := by
    intro h
    exact hbufs (List.length_eq_zero.1 (by exact_mod_cast h))
  have hm2 : ∀ b ∈ ({ wf with heap := wf.heap.drop 1 } : World).heap, b = true :=
    fun b hb => hm b (List.mem_of_mem_drop hb)
  have hload := load_lines_ok ((fgets_all MAX_LINE content.data []).length : Int)
    (fgets_all MAX_LINE content.data []) [] { wf with heap := wf.heap.drop 1 } hm2 (by simp)
  generalize hw2 : ({ wf with heap := wf.heap.drop 1 } : World) = w2 at hload
  have hw2s : w2.stdin = wf.stdin ∧ w2.char_signed = wf.char_signed ∧ w2.out = wf.out ∧
      w2.winsz = wf.winsz := by subst hw2; exact ⟨rfl, rfl, rfl, rfl⟩
  generalize hw3 : ({ w2 with heap := w2.heap.drop (fgets_all MAX_LINE content.data []).length }
    : World) = w3 at hload
  have hw3s : w3.stdin = wf.stdin ∧ w3.char_signed = wf.char_signed ∧ w3.out = wf.out ∧
      w3.winsz = wf.winsz := by subst hw3; exact hw2s
  refine ⟨(get_terminal_height w3).2, ?_, ?_, ?_, ?_⟩
  · rw [← hw3s.1]; unfold get_terminal_height
    rcases w3.winsz with _ | ⟨_ | r, t⟩ <;> rfl
  · rw [← hw3s.2.1]; unfold get_terminal_height
    rcases w3.winsz with _ | ⟨_ | r, t⟩ <;> rfl
  · rw [← hw3s.2.2.1]; unfold get_terminal_height
    rcases w3.winsz with _ | ⟨_ | r, t⟩ <;> rfl
  · rw [← get_terminal_height_congr wf w3 hw3s.2.2.2]
    unfold read_file
    simp only [hf]
    rw [if_neg htot]
    rw [malloc_ok wf hm]
    simp only [Bool.true_eq_false, if_false]
    rw [hw2, hload]
    simp

set_option maxRecDepth 100000

/-- C17, as stated, fails: a file of one line of 511 letters and a line feed is
one line for the specification, and `read_file` loads two, the letters and an
empty line, and pages `lines 1-2 of 2`; and of the line `a`, NUL, `b` it stores
`a`. -/
theorem read_file_long_line_split :
    (spec_lines long_line.data).length = 1 ∧
    ((fgets_all MAX_LINE long_line.data []).map stored_line).length = 2 ∧
    (∃ w, read_file 1 "f" { World.blank with fopens := [some long_line], stdin := [113] } =
        some w ∧ Event.print "File: f (lines 1-2 of 2)\r\n" ∈ w.out) ∧
    (fgets_all MAX_LINE ['a', Char.ofNat 0, 'b', '\n'] []).map stored_line = ["a"] ∧
    (spec_lines ['a', Char.ofNat 0, 'b', '\n']).map String.mk =
      [String.mk ['a', Char.ofNat 0, 'b']] := by
  refine ⟨by decide, by decide, ⟨_, rfl, by decide⟩, by decide, by decide⟩

/-- C17, amended: for a file that opens, is not empty, holds no NUL character and
no line of more than `MAX_LINE - 2 = 510` characters, when no allocation fails,
the lines `read_file` loads are the content split at line feeds, in file order,
each without its line feed, a final line without line feed counting as one; and
the paging loop is entered with these lines and with `total_lines` equal to
their number. -/
theorem read_file_lines (fuel : Nat) (path content : String) (w : World)
    (rest : List (Option String))
    (ho : w.fopens = some content :: rest) (hm : ∀ b ∈ w.heap, b = true)
    (hne : content ≠ "")
    (hnul : ∀ c ∈ content.data, c ≠ Char.ofNat 0)
    (hlen : ∀ x ∈ spec_lines content.data, x.length ≤ MAX_LINE - 2) :
    (fgets_all MAX_LINE content.data []).map stored_line =
      (spec_lines content.data).map String.mk ∧
    (∃ w1, w1.stdin = w.stdin ∧ w1.out = w.out ++ [Event.fopen path] ∧
      read_file fuel path w =
        pager_loop path ((spec_lines content.data).map String.mk)
          (((spec_lines content.data).map String.mk).length : Nat)
          ((get_terminal_height w).1 - 4) fuel 0 w1) := by
  have hf : w.fopen path =
      (some content, { w with out := w.out ++ [Event.fopen path], fopens := rest }) := by
    simp [World.fopen, ho]
  have hs : (fgets_all MAX_LINE content.data []).map stored_line =
      (spec_lines content.data).map String.mk := by
    have := fgets_all_stored content.data [] (by simp) hnul (by simp)
      (by rw [with_line_start_nil]; exact hlen)
    rw [with_line_start_nil] at this
    exact this
  refine ⟨hs, ?_⟩
  obtain ⟨w1, h1, _, h3, h4⟩ := read_file_after_fopen fuel path content w _ hf hm hne
  refine ⟨w1, h1, h3, ?_⟩
  have hh := get_terminal_height_congr w
    { w with out := w.out ++ [Event.fopen path], fopens := rest } rfl
  rw [h4, hs, hh]

theorem read_file_lines_witness :
    (fgets_all MAX_LINE "line1\nline2\nline3".data []).map stored_line =
      ["line1", "line2", "line3"] :=
  ((read_file_lines 1 "f" "line1\nline2\nline3"
    { World.blank with fopens := [some "line1\nline2\nline3"] } [] rfl (by decide) (by decide)
    (by decide) (by decide)).1).trans (by decide)

/-! ## Raw mode -/

theorem and_not_testBit (x m i : Nat) (hx : x < 2 ^ 32) :
    (and_not x m).testBit i = (x.testBit i && !m.testBit i) := by
  unfold and_not
  have hM : (4294967295 : Nat) = 2 ^ 32 - 1 := by norm_num
  rw [hM, Nat.testBit_and, Nat.testBit_xor, Nat.testBit_two_pow_sub_one]
  by_cases hi : i < 32
  · simp [hi]
  · have hxi : x.testBit i = false := by
      apply Nat.testBit_lt_two_pow
      calc x < 2 ^ 32 := hx
        _ ≤ 2 ^ i := Nat.pow_le_pow_right (by norm_num) (by omega)
    simp [hxi]

theorem tcsetattr_ok (p : Proc) (t0 t : Termios) (ht : p.tty = some t0)
    (hs : ∀ b ∈ p.tcset, b = true) :
    tcsetattr p t =
      { p with applied := p.applied ++ [t], tty := some t, tcset := p.tcset.drop 1 } := by
  obtain ⟨w, tty, tc, o, a, ap⟩ := p
  simp only [] at ht hs
  subst ht
  unfold tcsetattr
  cases tc with
  | nil => rfl
  | cons b r =>
    have : b = true := hs b (List.mem_cons_self _ _)
    subst this
    rfl

/-- C14: on a terminal, when `tcsetattr` succeeds, `enable_raw_mode` captures the
attributes `t` of the terminal in `orig_termios` and applies a struct that
differs from `t` only in `c_lflag`, where the bits of ECHO and ICANON are
cleared, and in `c_cc`, where entry VMIN is 1 and entry VTIME is 0;
`disable_raw_mode` applies `t` itself, so after enable and disable the terminal
has the attributes it had at the start. -/
theorem raw_mode_round_trip (K : TermiosConsts) (p : Proc) (t : Termios)
    (ht : p.tty = some t) (hs : ∀ b ∈ p.tcset, b = true)
    (hmin : K.VMIN < t.c_cc.length) (htime : K.VTIME < t.c_cc.length)
    (hne : K.VMIN ≠ K.VTIME) (hl : t.c_lflag < 2 ^ 32) :
    (enable_raw_mode K p).orig_termios = t ∧
    (enable_raw_mode K p).applied = p.applied ++ [raw_termios K t] ∧
    (enable_raw_mode K p).tty = some (raw_termios K t) ∧
    (raw_termios K t).c_iflag = t.c_iflag ∧ (raw_termios K t).c_oflag = t.c_oflag ∧
    (raw_termios K t).c_cflag = t.c_cflag ∧ (raw_termios K t).c_line = t.c_line ∧
    (raw_termios K t).c_ispeed = t.c_ispeed ∧ (raw_termios K t).c_ospeed = t.c_ospeed ∧
    (∀ i, (raw_termios K t).c_lflag.testBit i =
      (t.c_lflag.testBit i && !(K.ECHO.testBit i || K.ICANON.testBit i))) ∧
    (raw_termios K t).c_cc.length = t.c_cc.length ∧
    (raw_termios K t).c_cc[K.VMIN]? = some 1 ∧
    (raw_termios K t).c_cc[K.VTIME]? = some 0 ∧
    (∀ j, j ≠ K.VMIN → j ≠ K.VTIME → (raw_termios K t).c_cc[j]? = t.c_cc[j]?) ∧
    (disable_raw_mode (enable_raw_mode K p)).applied =
      p.applied ++ [raw_termios K t, t] ∧
    (disable_raw_mode (enable_raw_mode K p)).tty = p.tty := by
  have he : enable_raw_mode K p =
      { p with orig_termios := t, at_exit := p.at_exit + 1,
               applied := p.applied ++ [raw_termios K t], tty := some (raw_termios K t),
               tcset := p.tcset.drop 1 } := by
    unfold enable_raw_mode tcgetattr_orig
    simp only [ht]
    exact tcsetattr_ok _ t _ rfl hs
  have hd : disable_raw_mode (enable_raw_mode K p) =
      { p with orig_termios := t, at_exit := p.at_exit + 1,
               applied := p.applied ++ [raw_termios K t] ++ [t], tty := some t,
               tcset := (p.tcset.drop 1).drop 1 } := by
    rw [he]
    unfold disable_raw_mode
    exact tcsetattr_ok _ (raw_termios K t) _ rfl (fun b hb => hs b (List.mem_of_mem_drop hb))
  refine ⟨by rw [he], by rw [he], by rw [he], rfl, rfl, rfl, rfl, rfl, rfl, ?_, ?_, ?_, ?_, ?_,
    by rw [hd]; simp, by rw [hd, ht]⟩
  · intro i
    show (and_not t.c_lflag (K.ECHO ||| K.ICANON)).testBit i = _
    rw [and_not_testBit _ _ _ hl, Nat.testBit_or]
  · simp [raw_termios]
  · simp only [raw_termios, List.getElem?_set]
    simp [hne.symm, hmin, htime]
  · simp only [raw_termios, List.getElem?_set]
    simp [htime]
  · intro j h1 h2
    simp only [raw_termios, List.getElem?_set]
    simp [Ne.symm h1, Ne.symm h2]

theorem raw_mode_round_trip_witness :
    (enable_raw_mode linux_consts (Proc.start World.blank (some cooked) [])).tty =
      some { cooked with c_lflag := 35377 } ∧
    (disable_raw_mode (enable_raw_mode linux_consts
      (Proc.start World.blank (some cooked) []))).tty = some cooked :=
  ⟨((raw_mode_round_trip linux_consts (Proc.start World.blank (some cooked) []) cooked rfl
      (by decide) (by decide) (by decide) (by decide) (by decide)).2.2.1).trans (by decide),
   (raw_mode_round_trip linux_consts (Proc.start World.blank (some cooked) []) cooked rfl
      (by decide) (by decide) (by decide) (by decide) (by decide)).2.2.2.2.2.2.2.2.2.2.2.2.2.2.2⟩

/-! ## main -/

theorem tcsetattr_world (p : Proc) (t : Termios) : (tcsetattr p t).world = p.world := by
  unfold tcsetattr
  simp only []
  split
  · rfl
  · split
    · rfl
    · split_ifs <;> rfl

theorem enable_raw_mode_world (K : TermiosConsts) (p : Proc) :
    (enable_raw_mode K p).world = p.world := by
  unfold enable_raw_mode
  rw [tcsetattr_world]
  unfold tcgetattr_orig
  split <;> rfl

theorem disable_iter_world (n : Nat) : ∀ p : Proc, (disable_raw_mode^[n] p).world = p.world := by
  induction n with
  | zero => intro p; rfl
  | succ n ih =>
    intro p
    rw [Function.iterate_succ_apply, ih]
    exact tcsetattr_world p _

theorem run_atexit_world (p : Proc) : (run_atexit p).world = p.world :=
  disable_iter_world p.at_exit p

theorem tcsetattr_fails (p : Proc) (t : Termios)
    (hfail : p.tty = none ∨ p.tcset.head? = some false) : (tcsetattr p t).tty = p.tty := by
  obtain ⟨w, tty, tc, o, a, ap⟩ := p
  simp only [] at hfail
  unfold tcsetattr
  rcases hfail with h | h
  · subst h; rfl
  · cases tc with
    | nil => simp at h
    | cons b r =>
      simp only [List.head?_cons, Option.some.injEq] at h
      subst h
      cases tty <;> rfl

/-- C15, as stated, fails: with standard input not a terminal (the query fails),
and with a terminal on which `tcsetattr` fails, `main` shows the browser, reads
the key `q`, prints no diagnostic and ends with status 0. -/
theorem main_runs_without_terminal :
    (∃ p1, main linux_consts 3 ["reader"]
        (Proc.start { World.blank with dirs := [some []], stdin := [113] } none []) =
          some (0, p1) ∧
      p1.world.stdin = [] ∧ p1.tty = none ∧
      p1.world.out = [Event.opendir ".", Event.print CLEAR, Event.print "Directory: .\r\n\n",
        Event.print "(Empty directory)\r\n\n", Event.print "Press 'q' to go back\r\n",
        Event.print CLEAR, Event.print "Exiting.\r\n"]) ∧
    (∃ p2, main linux_consts 3 ["reader"]
        (Proc.start { World.blank with dirs := [some []], stdin := [113] } (some cooked)
          [false]) = some (0, p2) ∧
      p2.world.stdin = [] ∧ p2.tty = some cooked ∧
      Event.print "(Empty directory)\r\n\n" ∈ p2.world.out) := by
  refine ⟨⟨_, rfl, rfl, rfl, by decide⟩, ⟨_, rfl, rfl, rfl, by decide⟩⟩

/-- C15, amended: when the query or the application of the terminal attributes
fails in `enable_raw_mode`, the failure is not detected: `enable_raw_mode`
prints nothing, reads no key and leaves the attributes of the terminal as they
were; `main` runs `browse` on the start path (`argv[1]`, or `.`), and when
`browse` returns it prints the exit message and ends with status 0. -/
theorem main_ignores_terminal_failure (K : TermiosConsts) (fuel : Nat) (argv : List String)
    (p : Proc) (hfail : p.tty = none ∨ p.tcset.head? = some false) :
    (enable_raw_mode K p).world = p.world ∧
    (enable_raw_mode K p).tty = p.tty ∧
    (main K fuel argv p).map (fun r => r.1) =
      (browse fuel (if argv.length > 1 then argv.getD 1 "." else ".") p.world).map
        (fun _ => 0) ∧
    (main K fuel argv p).map (fun r => r.2.world) =
      (browse fuel (if argv.length > 1 then argv.getD 1 "." else ".") p.world).map
        (fun w => (w.printf CLEAR).printf "Exiting.\r\n") := by
  have hw := enable_raw_mode_world K p
  have ht : (enable_raw_mode K p).tty = p.tty := by
    unfold enable_raw_mode
    rw [tcsetattr_fails]
    · unfold tcgetattr_orig; split <;> rfl
    · unfold tcgetattr_orig
      rcases hfail with h | h
      · left; simp [h]
      · right; split <;> exact h
  refine ⟨hw, ht, ?_, ?_⟩
  · unfold main
    simp only [hw]
    cases browse fuel (if argv.length > 1 then argv.getD 1 "." else ".") p.world <;> rfl
  · unfold main
    simp only [hw]
    cases browse fuel (if argv.length > 1 then argv.getD 1 "." else ".") p.world with
    | none => rfl
    | some w =>
      simp only [Option.map_some']
      rw [run_atexit_world]

theorem main_ignores_terminal_failure_witness :
    (main linux_consts 3 ["reader", "/tmp"]
        (Proc.start { World.blank with dirs := [some []], stdin := [113] } none [])).map
        (fun r => r.1) = some 0 :=
  ((main_ignores_terminal_failure linux_consts 3 ["reader", "/tmp"]
    (Proc.start { World.blank with dirs := [some []], stdin := [113] } none [])
    (Or.inl rfl)).2.2.1).trans (by decide)

end Reader
